import Mathlib

/-!
# mnemosyne: the AVX2 signature scanner (`src/scan/scanner_avx2.cpp`)

A shallow embedding of the single-candidate vector matcher `do_scan_avx2_x1`, its
dispatcher `scan_impl_avx2_x1`, the two anchor selectors, and the sixteen-candidate
matcher `do_scan_avx2_x16` with its pattern loader `load_sig_256_16`, followed by
theorems about them. Two of the functions also come in a second form that records what
they touch: `do_scan_avx2_x1_loads` lists the 32-byte loads of Matcher A, and
`find_twobyte_idx_reads` the cell indices the anchor selector reads.

Conventions of the embedding.
* Addresses and sizes are natural numbers; `size_t` wrap-around is written out with an
  explicit `% 2^64` at the one place where the source relies on it (the span test of the
  dispatcher) and at the lane-count argument of `_bzhi_u32`.
* Memory is a total function from addresses to bytes; a byte read is `mem a % 256`.
  The buffer `[begin, end)` is a range of addresses of that memory, so what lies after
  `end` is simply whatever the memory function holds there.
* A 256-bit register is a function from the lane index (0..31) to the byte in that lane.
* A returned pointer is `some address`; `nullptr` is `none`.
-/

namespace mnem

/-! ## Data model -/

/-- One signature cell: the expected byte and the mask selecting the bits that count. -/
structure sig_element where
  byte : Nat
  mask : Nat
deriving DecidableEq

/-- A signature is the ordered sequence of its cells. -/
abbrev signature := List sig_element

/-- Byte-addressed memory. -/
abbrev Memory := Nat → Nat

/-- A 256-bit register seen as 32 byte lanes. -/
abbrev m256i := Nat → Nat

/-- The `sig[i]` accessor of the source. -/
def sig_at (sig : signature) (i : Nat) : sig_element := sig.getD i ⟨0, 0⟩

/-- One byte read from memory. -/
def rd (mem : Memory) (a : Nat) : Nat := mem a % 256

/-- Modelled from the spec: the comparison of a signature cell with a buffer byte, whose
declaration (`operator==` of the cell type, `scanner_impls.hpp` and the signature header)
is not part of the source file. Section 3 of the spec: `buffer_byte & mask ==
pattern_byte & mask`. -/
def cell_eq (c : sig_element) (b : Nat) : Bool := (b &&& c.mask) == (c.byte &&& c.mask)

/-- `std::equal (first1, last1, first2)` with the cells `[first1, last1)` and the bytes
from address `p` on. -/
def std_equal : List sig_element → Memory → Nat → Bool
  | [], _, _ => true
  | c :: cs, mem, p => cell_eq c (rd mem p) && std_equal cs mem (p + 1)

/-- The signature matches the memory at address `p`: every cell equals the byte under it. -/
def matchAt (mem : Memory) (sig : signature) (p : Nat) : Bool := std_equal sig mem p

/-- `std::search (first, last, sig.begin(), sig.end())`: the first address `r` with
`first <= r`, `r + sig.size() <= last` at which the signature matches, `last` if none. -/
def std_search (mem : Memory) (first last : Nat) (sig : signature) : Nat :=
  match (List.range (last + 1 - first - sig.length)).find? (fun k => std_equal sig mem (first + k)) with
  | some k => first + k
  | none => last

/-- Modelled from the spec: the scalar reference scanner `scan_impl_normal_x1`, declared in
`scanner_impls.hpp` and defined outside the source file. Sections 3 and 6 of the spec: it
returns the address of the first offset in `[begin, end - length]` at which the signature
matches, or not-found. -/
def scan_impl_normal_x1 (mem : Memory) (begin_ end_ : Nat) (sig : signature) : Option Nat :=
  ((List.range (end_ + 1 - begin_ - sig.length)).find? (fun k => matchAt mem sig (begin_ + k))).map
    (fun k => begin_ + k)

/-- The enumeration `cmp_type` of the source. -/
inductive cmp_type where
  | none
  | full
  | masked
deriving DecidableEq

/-- The enumeration `cmp_type_extop` of the source. -/
inductive cmp_type_extop where
  | none
  | instrgt
deriving DecidableEq

/-! ## Scalar helpers and intrinsics -/

/-- `std::popcount` of a `uint8_t`. -/
def popcount (x : Nat) : Nat :=
  x % 2 + x / 2 % 2 + x / 4 % 2 + x / 8 % 2 + x / 16 % 2 + x / 32 % 2 + x / 64 % 2 + x / 128 % 2

/-- The value of a byte read as a signed 8-bit integer. -/
def toInt8 (x : Nat) : Int := if x % 256 < 128 then (x % 256 : Nat) else (x % 256 : Nat) - 256

/-- `_mm256_set1_epi8`. -/
def set1_epi8 (b : Nat) : m256i := fun _ => b % 256

/-- `_mm256_loadu_si256` / `_mm256_load_si256` from memory at `ptr`. -/
def loadu_si256 (mem : Memory) (ptr : Nat) : m256i := fun i => rd mem (ptr + i)

/-- `_mm256_and_si256`. -/
def and_si256 (a b : m256i) : m256i := fun i => a i &&& b i

/-- `_mm256_cmpeq_epi8`. -/
def cmpeq_epi8 (a b : m256i) : m256i := fun i => if a i = b i then 0xFF else 0

/-- `_mm256_cmpgt_epi8`: a signed comparison in every lane. -/
def cmpgt_epi8 (a b : m256i) : m256i := fun i => if toInt8 (a i) > toInt8 (b i) then 0xFF else 0

/-- The top bits of the `n` lanes from lane `i` on, lane `i` in bit 0. -/
def movemask_from (v : m256i) : Nat → Nat → Nat
  | _, 0 => 0
  | i, n + 1 => v i / 128 % 2 + 2 * movemask_from v (i + 1) n

/-- `_mm256_movemask_epi8`: bit `i` of the result is the top bit of lane `i`. -/
def movemask_epi8 (v : m256i) : Nat := movemask_from v 0 32

/-- `_bzhi_u32 (src, index)`: with `n = index[7:0]`, clear the bits of `src` from `n` up
when `n < 32`, else leave `src` as it is. -/
def bzhi_u32 (src index : Nat) : Nat :=
  if index % 256 < 32 then src % 2 ^ (index % 256) else src

/-- Count of trailing zero bits among the lowest `n` bits. -/
def tzcnt_upto : Nat → Nat → Nat
  | 0, _ => 0
  | n + 1, m => if m % 2 = 1 then 0 else 1 + tzcnt_upto n (m / 2)

/-- `_tzcnt_u32`: the index of the lowest set bit, 32 for zero. -/
def tzcnt_u32 (m : Nat) : Nat := tzcnt_upto 32 m

/-- `_blsr_u32`: reset the lowest set bit, `(m - 1) & m`. -/
def blsr_u32 (m : Nat) : Nat := (m - 1) &&& m

/-! ## Anchor selection -/

/-- One iteration of the loop of `find_twobyte_idx`, from `best` to the next `best`. -/
def find_twobyte_idx_step (sig : signature) (best i : Nat) : Nat :=
  if (sig_at sig i).mask = 0 then best
  else
    let i_count := popcount (sig_at sig i).mask +
      (if i + 1 < sig.length then popcount (sig_at sig (i + 1)).mask else 0)
    let best_count := popcount (sig_at sig best).mask + popcount (sig_at sig (best + 1)).mask
    if i_count > best_count then i else best

/-- `find_twobyte_idx`: the optimal index for the two-byte search. -/
def find_twobyte_idx (sig : signature) : Nat :=
  if (sig_at sig 0).mask = 0xFF ∧ sig.length > 1 ∧ (sig_at sig 1).mask = 0xFF then 0
  else (List.range' 1 (sig.length - 1)).foldl (find_twobyte_idx_step sig) 0

/-- One iteration of the loop of `find_maxbyte_idx` on the state `(max_byte, idx)`. -/
def find_maxbyte_idx_step (sig : signature) (st : Nat × Nat) (i : Nat) : Nat × Nat :=
  if (sig_at sig i).byte > st.1 then ((sig_at sig i).byte, i) else st

/-- `find_maxbyte_idx`: the index of the greatest raw byte of the signature. -/
def find_maxbyte_idx (sig : signature) : Nat :=
  ((List.range' 1 (sig.length - 1)).foldl (find_maxbyte_idx_step sig) ((sig_at sig 0).byte, 0)).2

/-! ## Matcher A -/

/-- `load_sig_256_32`: the masked bytes and the masks of the first 32 cells, zero beyond
the signature. -/
def load_sig_256_32 (sig : signature) : m256i × m256i :=
  (fun i => if i < 32 then (if i < sig.length then (sig_at sig i).byte &&& (sig_at sig i).mask else 0) else 0,
   fun i => if i < 32 then (if i < sig.length then (sig_at sig i).mask else 0) else 0)

/-- The lane mask of the first anchor byte (source lines 140-144 and 199-203). -/
def anchor_mask0 (C0 : cmp_type) (memv b0 m0 : m256i) : Nat :=
  if C0 = cmp_type.masked then movemask_epi8 (cmpeq_epi8 (and_si256 memv m0) b0)
  else movemask_epi8 (cmpeq_epi8 memv b0)

/-- The combination with the lane mask of the second anchor byte (source lines 148-156
and 205-213); lane 31 has no successor lane in the window and is kept. -/
def anchor_mask1 (C1 : cmp_type) (memv b1 m1 : m256i) (mask : Nat) : Nat :=
  if C1 = cmp_type.none then mask
  else
    let mask1 :=
      if C1 = cmp_type.masked then movemask_epi8 (cmpeq_epi8 (and_si256 memv m1) b1)
      else movemask_epi8 (cmpeq_epi8 memv b1)
    mask &&& ((mask1 >>> 1) ||| (1 <<< 31))

/-- The full-signature check of a candidate (source lines 170-177 and 229-239): the
32-lane masked comparison, then `std::equal` on the cells from 32 on when `SigExt`. -/
def verify_candidate (SigExt : Bool) (mem : Memory) (sig : signature) (bsig msig : m256i)
    (m : Nat) : Bool :=
  let match_vec := and_si256 (loadu_si256 mem m) msig
  if movemask_epi8 (cmpeq_epi8 match_vec bsig) = 0xFFFFFFFF then
    if !SigExt then true else std_equal (sig.drop 32) mem (m + 32)
  else false

/-- The `while (mask)` loops: `f` is the loop body at the lane `_tzcnt_u32 (mask)`, which
either returns from the scan (`some r`) or falls through to `mask = _blsr_u32 (mask)`. -/
def mask_loop (f : Nat → Option (Option Nat)) : Nat → Nat → Option (Option Nat)
  | 0, _ => none
  | fuel + 1, mask =>
    if mask = 0 then none
    else
      match f (tzcnt_u32 mask) with
      | some r => some r
      | none => mask_loop f fuel (blsr_u32 mask)

/-- The body of the head-pass `while (mask)` loop at one lane (source lines 161-177). -/
def head_candidate (CSig : cmp_type) (SigExt : Bool) (mem : Memory) (sig : signature)
    (twobyte_idx ptr lane : Nat) : Option (Option Nat) :=
  let m := ptr + lane
  if CSig = cmp_type.none then some (some m)
  else
    let m := m - twobyte_idx
    if verify_candidate SigExt mem sig (load_sig_256_32 sig).1 (load_sig_256_32 sig).2 m then
      some (some m)
    else none

/-- The body of the aligned-body `while (mask)` loop at one lane (source lines 218-239);
`end_adj` is the adjusted `end`. -/
def body_candidate (CSig : cmp_type) (SigExt : Bool) (mem : Memory) (sig : signature)
    (twobyte_idx end_adj ptr lane : Nat) : Option (Option Nat) :=
  let m := ptr + lane
  if m > end_adj then some none
  else if CSig = cmp_type.none then some (some m)
  else
    let m := m - twobyte_idx
    if verify_candidate SigExt mem sig (load_sig_256_32 sig).1 (load_sig_256_32 sig).2 m then
      some (some m)
    else none

/-- The lane mask of the two anchor bytes in the window at `ptr` (source lines 199-213):
the registers `b0, m0, b1, m1` are the broadcasts of the cells `twobyte_idx` and
`twobyte_idx + 1` (source lines 104-114). -/
def anchor_mask (C0 C1 : cmp_type) (mem : Memory) (sig : signature) (twobyte_idx ptr : Nat) :
    Nat :=
  let memv := loadu_si256 mem ptr
  anchor_mask1 C1 memv (set1_epi8 (sig_at sig (twobyte_idx + 1)).byte)
    (set1_epi8 (sig_at sig (twobyte_idx + 1)).mask)
    (anchor_mask0 C0 memv (set1_epi8 (sig_at sig twobyte_idx).byte)
      (set1_epi8 (sig_at sig twobyte_idx).mask))

/-- The quick-reject test of the aligned body (source lines 186-187, 195): some lane of the
window at `ptr` is greater, as a signed byte, than the byte of the cell `maxbyte_idx`. -/
def quick_reject (mem : Memory) (sig : signature) (maxbyte_idx ptr : Nat) : Bool :=
  decide (movemask_epi8 (cmpgt_epi8 (loadu_si256 mem ptr)
    (set1_epi8 (sig_at sig maxbyte_idx).byte)) ≠ 0)

/-- One iteration of the aligned-body `for` loop (source lines 191-242): `some r` returns
`r` from the scan, `none` goes on to the next window. -/
def body_window (C0 C1 CSig : cmp_type) (SigExt : Bool) (CExt : cmp_type_extop) (mem : Memory)
    (sig : signature) (twobyte_idx maxbyte_idx end_adj ptr : Nat) : Option (Option Nat) :=
  if CExt = cmp_type_extop.instrgt ∧ quick_reject mem sig maxbyte_idx ptr = true then none
  else
    mask_loop (body_candidate CSig SigExt mem sig twobyte_idx end_adj ptr) 32
      (anchor_mask C0 C1 mem sig twobyte_idx ptr)

/-- The aligned-body loop `for (; ptr < end; ptr += 32)`. The fuel bounds the number of
iterations; `end_adj - ptr` of them always suffice. -/
def body_loop (C0 C1 CSig : cmp_type) (SigExt : Bool) (CExt : cmp_type_extop) (mem : Memory)
    (sig : signature) (twobyte_idx maxbyte_idx end_adj : Nat) : Nat → Nat → Option (Option Nat)
  | 0, _ => none
  | fuel + 1, ptr =>
    if ptr < end_adj then
      match body_window C0 C1 CSig SigExt CExt mem sig twobyte_idx maxbyte_idx end_adj ptr with
      | some r => some r
      | none => body_loop C0 C1 CSig SigExt CExt mem sig twobyte_idx maxbyte_idx end_adj fuel
          (ptr + 32)
    else none

/-- The lanes the head pass keeps (source line 146): `_bzhi_u32 (0xFFFFFFFF, 32 - (ptr | 31))`
with `ptr` read as a `uintptr_t`, the difference taken modulo `2^64` and narrowed to the
32-bit index operand. -/
def head_lanes (ptr : Nat) : Nat :=
  bzhi_u32 0xFFFFFFFF ((32 + 18446744073709551616 - (ptr ||| 31) % 18446744073709551616)
    % 18446744073709551616 % 4294967296)

/-- The lane mask of the head pass (source lines 138-156): the mask of the first anchor
byte, cut to the kept lanes, then combined with the mask of the second anchor byte. -/
def head_mask (C0 C1 : cmp_type) (mem : Memory) (sig : signature) (twobyte_idx ptr : Nat) :
    Nat :=
  let memv := loadu_si256 mem ptr
  anchor_mask1 C1 memv (set1_epi8 (sig_at sig (twobyte_idx + 1)).byte)
    (set1_epi8 (sig_at sig (twobyte_idx + 1)).mask)
    (anchor_mask0 C0 memv (set1_epi8 (sig_at sig twobyte_idx).byte)
      (set1_epi8 (sig_at sig twobyte_idx).mask) &&& head_lanes ptr)

/-- The head pass (source lines 135-181) at `ptr = begin + twobyte_idx`. -/
def head_pass (C0 C1 CSig : cmp_type) (SigExt : Bool) (mem : Memory) (sig : signature)
    (twobyte_idx ptr : Nat) : Option (Option Nat) :=
  mask_loop (head_candidate CSig SigExt mem sig twobyte_idx ptr) 32
    (head_mask C0 C1 mem sig twobyte_idx ptr)

/-- The adjusted `end` (source lines 127-132). -/
def scan_limit (CSig : cmp_type) (SigExt : Bool) (end_ : Nat) (sig : signature)
    (twobyte_idx : Nat) : Nat :=
  if CSig ≠ cmp_type.none ∧ SigExt = false then end_ - (32 - twobyte_idx - 1)
  else end_ - (sig.length - twobyte_idx - 1)

/-- The tail pass (source lines 245-255), `end_adj` being the adjusted `end`. -/
def tail_pass (CSig : cmp_type) (SigExt : Bool) (mem : Memory) (sig : signature)
    (twobyte_idx end_adj : Nat) : Option Nat :=
  if CSig ≠ cmp_type.none ∧ SigExt = false then
    let e := end_adj + twobyte_idx
    let result := std_search mem e (e + 31) sig
    if result ≠ e + 31 then some result else none
  else none

/-- The template `do_scan_avx2_x1<C0, C1, CSig, SigExt, CExt>`. -/
def do_scan_avx2_x1 (C0 C1 CSig : cmp_type) (SigExt : Bool) (CExt : cmp_type_extop)
    (mem : Memory) (begin_ end_ : Nat) (sig : signature) (twobyte_idx maxbyte_idx : Nat) :
    Option Nat :=
  let end_adj := scan_limit CSig SigExt end_ sig twobyte_idx
  let ptr := begin_ + twobyte_idx
  match head_pass C0 C1 CSig SigExt mem sig twobyte_idx ptr with
  | some r => r
  | none =>
    let ptr := (ptr ||| 31) + 1
    match body_loop C0 C1 CSig SigExt CExt mem sig twobyte_idx maxbyte_idx end_adj
        (end_adj - ptr) ptr with
    | some r => r
    | none => tail_pass CSig SigExt mem sig twobyte_idx end_adj

/-- The template argument `C0` the dispatcher selects (source lines 326, 334-335). -/
def dispatch_C0 (sig : signature) (twobyte_idx : Nat) : cmp_type :=
  if (sig_at sig twobyte_idx).mask ≠ 0xFF then cmp_type.masked else cmp_type.full

/-- The template argument `C1` the dispatcher selects (source lines 327, 337-343). -/
def dispatch_C1 (sig : signature) (twobyte_idx : Nat) : cmp_type :=
  if twobyte_idx + 1 < sig.length then
    (if (sig_at sig (twobyte_idx + 1)).mask = 0xFF then cmp_type.full
     else if (sig_at sig (twobyte_idx + 1)).mask ≠ 0 then cmp_type.masked
     else cmp_type.none)
  else cmp_type.none

/-- The template argument `CSig` the dispatcher selects (source lines 345-346, 356-362). -/
def dispatch_CSig (sig : signature) : cmp_type :=
  if sig.length > 2 then cmp_type.full else cmp_type.none

/-- The template argument `SigExt` the dispatcher selects (source lines 348-349, 356-362). -/
def dispatch_SigExt (sig : signature) : Bool :=
  decide (sig.length > 2) && decide (sig.length > 32)

/-- The dispatcher `scan_impl_avx2_x1`. The span test is the unsigned 64-bit comparison
of the source: `end - begin` is converted to `size_t` by the subtraction of `twobyte_idx`. -/
def scan_impl_avx2_x1 (mem : Memory) (begin_ end_ : Nat) (sig : signature) : Option Nat :=
  let twobyte_idx := find_twobyte_idx sig
  let maxbyte_idx := find_maxbyte_idx sig
  if ((end_ : Int) - (begin_ : Int) - (twobyte_idx : Int)) % 18446744073709551616 < 64 then
    scan_impl_normal_x1 mem begin_ end_ sig
  else if begin_ < end_ then
    do_scan_avx2_x1 (dispatch_C0 sig twobyte_idx) (dispatch_C1 sig twobyte_idx)
      (dispatch_CSig sig) (dispatch_SigExt sig) cmp_type_extop.instrgt mem begin_ end_ sig
      twobyte_idx maxbyte_idx
  else none

/-- The score of position `i` as an anchor: the set mask bits of cell `i` and of cell
`i + 1`, the latter counting zero when `i + 1` is out of range. -/
def anchor_score (sig : signature) (i : Nat) : Nat :=
  popcount (sig_at sig i).mask +
    (if i + 1 < sig.length then popcount (sig_at sig (i + 1)).mask else 0)

/-! ## Lane-level reading of the vector comparisons -/

/-- What one lane of the anchor comparison computes for the cell `c` and the byte at
address `a`: `(mem & m) == b` when the comparison is masked, `mem == b` otherwise. -/
def lane_hit (C : cmp_type) (mem : Memory) (c : sig_element) (a : Nat) : Bool :=
  if C = cmp_type.masked then decide (rd mem a &&& c.mask % 256 = c.byte % 256)
  else decide (rd mem a = c.byte % 256)

/-- Every cell holds bytes: the expected byte and the mask are below 256. -/
def sig_wf (sig : signature) : Prop := ∀ c, c ∈ sig → c.byte < 256 ∧ c.mask < 256

/-- Every cell stores its expected byte already masked. -/
def sig_norm (sig : signature) : Prop := ∀ c, c ∈ sig → c.byte &&& c.mask = c.byte

/-- The scan examines the anchor of the candidate at offset `p`: the candidate is the
first lane of the head window; or a lane of the head window and the head pass keeps all
its lanes; or its anchor lies at or after the first aligned window, that window is not
skipped by the quick-reject test, and a signature of 3 to 32 cells leaves 32 bytes
between the candidate and the end of the buffer. -/
def examined (mem : Memory) (begin_ end_ : Nat) (sig : signature) (p : Nat) : Prop :=
  p = 0 ∨
  (p < 32 ∧ (begin_ + find_twobyte_idx sig) / 32 % 8 ≠ 0) ∨
  (((begin_ + find_twobyte_idx sig) ||| 31) + 1 ≤ begin_ + p + find_twobyte_idx sig ∧
    quick_reject mem sig (find_maxbyte_idx sig)
      ((begin_ + p + find_twobyte_idx sig) / 32 * 32) = false ∧
    (3 ≤ sig.length → sig.length ≤ 32 → begin_ + p + 32 ≤ end_))

/-! ## Concrete inputs -/

/-- A signature of three cells whose first mask is partial: `0F FF FF`. -/
def sig_nibble : signature := [⟨0x02, 0x0F⟩, ⟨0x34, 0xFF⟩, ⟨0x56, 0xFF⟩]

/-- The signature of one exact cell `10`. -/
def sig_10 : signature := [⟨0x10, 0xFF⟩]

/-- The signature of one exact cell `AB`. -/
def sig_AB : signature := [⟨0xAB, 0xFF⟩]

/-- A memory of bytes `80` with `AB` at the address 4136. -/
def mem_80_AB : Memory := fun a => if a = 4136 then 0xAB else 0x80

/-- A memory of bytes `80` with `AB` at the address 4166. -/
def mem_80_AB_end : Memory := fun a => if a = 4166 then 0xAB else 0x80

/-- The signature of two exact cells `10 10`. -/
def sig_10_10 : signature := [⟨0x10, 0xFF⟩, ⟨0x10, 0xFF⟩]

/-- A memory of zero bytes with `10` at the address 4159. -/
def mem_lane31 : Memory := fun a => if a = 4159 then 0x10 else 0

/-- A memory of zero bytes with `AB` at the address 4136. -/
def mem_scenario1 : Memory := fun a => if a = 4136 then 0xAB else 0

/-- The signature `?? ?? AA BB`: two wildcards, then two exact cells. -/
def sig_wild2 : signature := [⟨0, 0⟩, ⟨0, 0⟩, ⟨0xAA, 0xFF⟩, ⟨0xBB, 0xFF⟩]

/-- A memory of zero bytes with `AA BB` at the addresses 4098 and 4099. -/
def mem_AA_BB : Memory := fun a => if a = 4098 then 0xAA else if a = 4099 then 0xBB else 0

/-- The signature of scenario 2: `90 ?? 90`. -/
def sig_scenario2 : signature := [⟨0x90, 0xFF⟩, ⟨0, 0⟩, ⟨0x90, 0xFF⟩]

/-- A memory of bytes `80` holding `90 FF 90` at the offset 50 and `90 00 90` at the
offset 100 from the address `b`. -/
def mem_scenario2 (b : Nat) : Memory := fun a =>
  if a = b + 50 then 0x90 else if a = b + 51 then 0xFF else if a = b + 52 then 0x90
  else if a = b + 100 then 0x90 else if a = b + 101 then 0 else if a = b + 102 then 0x90
  else 0x80

/-- A memory of bytes `80` holding `90 80 90` at the addresses 4136 to 4138. -/
def mem_wild : Memory := fun a => if a = 4136 then 0x90 else if a = 4138 then 0x90 else 0x80


/-! ## Matcher A with the 32-byte loads it issues -/

/-- The three places of `do_scan_avx2_x1` that load 32 bytes: the head load (source line
138), the window load of the aligned body (line 191) and the load of a candidate check
(lines 170, 230, 234). -/
inductive load_kind where
  | head
  | window
  | verify
deriving DecidableEq

/-- The `while (mask)` loops, with the loads the loop bodies issue, in order. -/
def mask_loop_loads (f : Nat → List (load_kind × Nat) × Option (Option Nat)) :
    Nat → Nat → List (load_kind × Nat) × Option (Option Nat)
  | 0, _ => ([], none)
  | fuel + 1, mask =>
    if mask = 0 then ([], none)
    else
      match (f (tzcnt_u32 mask)).2 with
      | some r => ((f (tzcnt_u32 mask)).1, some r)
      | none =>
        ((f (tzcnt_u32 mask)).1 ++ (mask_loop_loads f fuel (blsr_u32 mask)).1,
          (mask_loop_loads f fuel (blsr_u32 mask)).2)

/-- The body of the head-pass `while (mask)` loop at one lane, with the load of the
candidate check at `match - twobyte_idx`. -/
def head_candidate_loads (CSig : cmp_type) (SigExt : Bool) (mem : Memory) (sig : signature)
    (twobyte_idx ptr lane : Nat) : List (load_kind × Nat) × Option (Option Nat) :=
  let m := ptr + lane
  if CSig = cmp_type.none then ([], some (some m))
  else
    let m := m - twobyte_idx
    ([(load_kind.verify, m)],
      if verify_candidate SigExt mem sig (load_sig_256_32 sig).1 (load_sig_256_32 sig).2 m then
        some (some m)
      else none)

/-- The body of the aligned-body `while (mask)` loop at one lane, with the load of the
candidate check at `match - twobyte_idx`. -/
def body_candidate_loads (CSig : cmp_type) (SigExt : Bool) (mem : Memory) (sig : signature)
    (twobyte_idx end_adj ptr lane : Nat) : List (load_kind × Nat) × Option (Option Nat) :=
  let m := ptr + lane
  if m > end_adj then ([], some none)
  else if CSig = cmp_type.none then ([], some (some m))
  else
    let m := m - twobyte_idx
    ([(load_kind.verify, m)],
      if verify_candidate SigExt mem sig (load_sig_256_32 sig).1 (load_sig_256_32 sig).2 m then
        some (some m)
      else none)

/-- One iteration of the aligned-body `for` loop, with its window load at `ptr` and the
loads of its candidate checks. -/
def body_window_loads (C0 C1 CSig : cmp_type) (SigExt : Bool) (CExt : cmp_type_extop)
    (mem : Memory) (sig : signature) (twobyte_idx maxbyte_idx end_adj ptr : Nat) :
    List (load_kind × Nat) × Option (Option Nat) :=
  if CExt = cmp_type_extop.instrgt ∧ quick_reject mem sig maxbyte_idx ptr = true then
    ([(load_kind.window, ptr)], none)
  else
    ((load_kind.window, ptr) ::
        (mask_loop_loads (body_candidate_loads CSig SigExt mem sig twobyte_idx end_adj ptr) 32
          (anchor_mask C0 C1 mem sig twobyte_idx ptr)).1,
      (mask_loop_loads (body_candidate_loads CSig SigExt mem sig twobyte_idx end_adj ptr) 32
        (anchor_mask C0 C1 mem sig twobyte_idx ptr)).2)

/-- The aligned-body loop, with the loads of its iterations. -/
def body_loop_loads (C0 C1 CSig : cmp_type) (SigExt : Bool) (CExt : cmp_type_extop)
    (mem : Memory) (sig : signature) (twobyte_idx maxbyte_idx end_adj : Nat) :
    Nat → Nat → List (load_kind × Nat) × Option (Option Nat)
  | 0, _ => ([], none)
  | fuel + 1, ptr =>
    if ptr < end_adj then
      match (body_window_loads C0 C1 CSig SigExt CExt mem sig twobyte_idx maxbyte_idx end_adj
          ptr).2 with
      | some r =>
        ((body_window_loads C0 C1 CSig SigExt CExt mem sig twobyte_idx maxbyte_idx end_adj
          ptr).1, some r)
      | none =>
        ((body_window_loads C0 C1 CSig SigExt CExt mem sig twobyte_idx maxbyte_idx end_adj
            ptr).1 ++
          (body_loop_loads C0 C1 CSig SigExt CExt mem sig twobyte_idx maxbyte_idx end_adj fuel
            (ptr + 32)).1,
          (body_loop_loads C0 C1 CSig SigExt CExt mem sig twobyte_idx maxbyte_idx end_adj fuel
            (ptr + 32)).2)
    else ([], none)

/-- The head pass, with its head load at `ptr` and the loads of its candidate checks. -/
def head_pass_loads (C0 C1 CSig : cmp_type) (SigExt : Bool) (mem : Memory) (sig : signature)
    (twobyte_idx ptr : Nat) : List (load_kind × Nat) × Option (Option Nat) :=
  ((load_kind.head, ptr) ::
      (mask_loop_loads (head_candidate_loads CSig SigExt mem sig twobyte_idx ptr) 32
        (head_mask C0 C1 mem sig twobyte_idx ptr)).1,
    (mask_loop_loads (head_candidate_loads CSig SigExt mem sig twobyte_idx ptr) 32
      (head_mask C0 C1 mem sig twobyte_idx ptr)).2)

/-- The template `do_scan_avx2_x1` with the 32-byte loads it issues, in order, each with
its place in the source; the tail pass issues none. -/
def do_scan_avx2_x1_loads (C0 C1 CSig : cmp_type) (SigExt : Bool) (CExt : cmp_type_extop)
    (mem : Memory) (begin_ end_ : Nat) (sig : signature) (twobyte_idx maxbyte_idx : Nat) :
    List (load_kind × Nat) × Option Nat :=
  let end_adj := scan_limit CSig SigExt end_ sig twobyte_idx
  let ptr := begin_ + twobyte_idx
  match (head_pass_loads C0 C1 CSig SigExt mem sig twobyte_idx ptr).2 with
  | some r => ((head_pass_loads C0 C1 CSig SigExt mem sig twobyte_idx ptr).1, r)
  | none =>
    let ptr2 := (ptr ||| 31) + 1
    match (body_loop_loads C0 C1 CSig SigExt CExt mem sig twobyte_idx maxbyte_idx end_adj
        (end_adj - ptr2) ptr2).2 with
    | some r =>
      ((head_pass_loads C0 C1 CSig SigExt mem sig twobyte_idx ptr).1 ++
        (body_loop_loads C0 C1 CSig SigExt CExt mem sig twobyte_idx maxbyte_idx end_adj
          (end_adj - ptr2) ptr2).1, r)
    | none =>
      ((head_pass_loads C0 C1 CSig SigExt mem sig twobyte_idx ptr).1 ++
        (body_loop_loads C0 C1 CSig SigExt CExt mem sig twobyte_idx maxbyte_idx end_adj
          (end_adj - ptr2) ptr2).1,
        tail_pass CSig SigExt mem sig twobyte_idx end_adj)

/-- The 32-byte loads Matcher A issues in a call of the dispatcher `scan_impl_avx2_x1`:
none on the scalar path and for an empty buffer. -/
def scan_impl_avx2_x1_loads (mem : Memory) (begin_ end_ : Nat) (sig : signature) :
    List (load_kind × Nat) :=
  let twobyte_idx := find_twobyte_idx sig
  let maxbyte_idx := find_maxbyte_idx sig
  if ((end_ : Int) - (begin_ : Int) - (twobyte_idx : Int)) % 18446744073709551616 < 64 then []
  else if begin_ < end_ then
    (do_scan_avx2_x1_loads (dispatch_C0 sig twobyte_idx) (dispatch_C1 sig twobyte_idx)
      (dispatch_CSig sig) (dispatch_SigExt sig) cmp_type_extop.instrgt mem begin_ end_ sig
      twobyte_idx maxbyte_idx).1
  else []

/-! ## Anchor selection with the cell indices it reads -/

/-- The cell indices one iteration of the loop of `find_twobyte_idx` reads, in order:
`sig[i]` (source line 31), then, for a non-zero mask, `sig[i]` (line 35), `sig[i+1]`
under its guard (lines 36-37), `sig[best]` (line 39) and `sig[best+1]` (line 40). -/
def find_twobyte_idx_step_reads (sig : signature) (best i : Nat) : List Nat :=
  if (sig_at sig i).mask = 0 then [i]
  else [i, i] ++ (if i + 1 < sig.length then [i + 1] else []) ++ [best, best + 1]

/-- One iteration of the loop of `find_twobyte_idx` on the pair of `best` and of the
indices read so far. -/
def find_twobyte_idx_loop_reads (sig : signature) (st : Nat × List Nat) (i : Nat) :
    Nat × List Nat :=
  (find_twobyte_idx_step sig st.1 i, st.2 ++ find_twobyte_idx_step_reads sig st.1 i)

/-- The cell indices `find_twobyte_idx` reads, in order: `sig[0]`, and `sig[1]` when the
short-circuit test of source line 27 reaches it, then those of the loop. -/
def find_twobyte_idx_reads (sig : signature) : List Nat :=
  let first := 0 :: (if (sig_at sig 0).mask = 0xFF ∧ sig.length > 1 then [1] else [])
  if (sig_at sig 0).mask = 0xFF ∧ sig.length > 1 ∧ (sig_at sig 1).mask = 0xFF then first
  else ((List.range' 1 (sig.length - 1)).foldl (find_twobyte_idx_loop_reads sig) (0, first)).2

/-! ## Matcher B -/

/-- `_mm256_cmpeq_epi64`: every lane of an 8-byte group is `FF` when the two groups are
equal, `00` otherwise. -/
def cmpeq_epi64 (a b : m256i) : m256i := fun i =>
  if (List.range 8).all (fun k => a (i / 8 * 8 + k) == b (i / 8 * 8 + k)) then 0xFF else 0

/-- The assignment `arr[i] = v` on an array of lanes. -/
def array_set (arr : m256i) (i v : Nat) : m256i := fun k => if k = i then v else arr k

/-- One iteration of the loop of `load_sig_256_16` (source lines 86-94) on the pair of
arrays `(bytes, masks)`: the statements `bytes[i+16] = bytes[i] = byte & mask;` and
`bytes[i+16] = masks[i] = mask;` inside the signature, the two zeroing statements
outside. -/
def load_sig_256_16_step (sig : signature) (st : m256i × m256i) (i : Nat) : m256i × m256i :=
  if i < sig.length then
    let byte := (sig_at sig i).byte
    let mask := (sig_at sig i).mask
    let bytes := array_set (array_set st.1 i (byte &&& mask)) (i + 16) (byte &&& mask)
    let masks := array_set st.2 i mask
    let bytes := array_set bytes (i + 16) mask
    (bytes, masks)
  else
    (array_set (array_set st.1 i 0) (i + 16) 0, array_set (array_set st.2 i 0) (i + 16) 0)

/-- `load_sig_256_16`: the arrays `bytes` and `masks`, zero-initialised, after the loop
over `i = 0 .. 15`. -/
def load_sig_256_16 (sig : signature) : m256i × m256i :=
  (List.range 16).foldl (load_sig_256_16_step sig) (fun _ => 0, fun _ => 0)

/-- The flags of a window of Matcher B (source lines 283-287): the 8-byte comparison of
the masked window with the pattern, each half reduced to its bit 0 and bit 16. -/
def x16_mask (mem : Memory) (sig : signature) (ptr : Nat) : Nat :=
  let mask := movemask_epi8 (cmpeq_epi64
    (and_si256 (loadu_si256 mem ptr) (load_sig_256_16 sig).2) (load_sig_256_16 sig).1)
  mask &&& (mask >>> 8)

/-- The offset-0 branch of a window of Matcher B (source lines 293-300). -/
def x16_branch0 (SigExt : Bool) (mem : Memory) (sig : signature) (ptr : Nat) :
    Option (Option Nat) :=
  if SigExt then
    (if std_equal (sig.drop 16) mem (ptr + 16) then some (some ptr) else none)
  else some (some ptr)

/-- The offset-16 branch of a window of Matcher B (source lines 302-312), `end_adj` being
the adjusted `end`. -/
def x16_branch16 (SigExt : Bool) (mem : Memory) (sig : signature) (end_adj ptr : Nat) :
    Option (Option Nat) :=
  if ptr + 16 ≥ end_adj then some none
  else if SigExt then
    (if std_equal (sig.drop 16) mem (ptr + 32) then some (some ptr) else none)
  else some (some ptr)

/-- One iteration of the loop of Matcher B (source lines 283-312). -/
def x16_window (SigExt : Bool) (mem : Memory) (sig : signature) (end_adj ptr : Nat) :
    Option (Option Nat) :=
  let mask := x16_mask mem sig ptr
  if mask = 0 then none
  else
    match (if mask &&& 0x00000001 ≠ 0 then x16_branch0 SigExt mem sig ptr else none) with
    | some r => some r
    | none => if mask &&& 0x00010000 ≠ 0 then x16_branch16 SigExt mem sig end_adj ptr else none

/-- The loop `for (auto ptr = begin; ptr < end; ptr += 32)` of Matcher B; `end_adj - ptr`
iterations always suffice. -/
def x16_loop (SigExt : Bool) (mem : Memory) (sig : signature) (end_adj : Nat) :
    Nat → Nat → Option Nat
  | 0, _ => none
  | fuel + 1, ptr =>
    if ptr < end_adj then
      match x16_window SigExt mem sig end_adj ptr with
      | some r => r
      | none => x16_loop SigExt mem sig end_adj fuel (ptr + 32)
    else none

/-- The template `do_scan_avx2_x16<SigExt>`. -/
def do_scan_avx2_x16 (SigExt : Bool) (mem : Memory) (begin_ end_ : Nat) (sig : signature) :
    Option Nat :=
  let end_adj := end_ - (sig.length - 1)
  if begin_ % 32 ≠ 0 then
    if std_equal sig mem begin_ then some begin_
    else x16_loop SigExt mem sig end_adj (end_adj - (begin_ + 16)) (begin_ + 16)
  else x16_loop SigExt mem sig end_adj (end_adj - begin_) begin_

/-! ## More concrete inputs -/

/-- The signature of three exact cells `10 20 30`. -/
def sig_10_20_30 : signature := [⟨0x10, 0xFF⟩, ⟨0x20, 0xFF⟩, ⟨0x30, 0xFF⟩]

/-- A memory of zero bytes with `10 20 30` at the addresses 4200 to 4202. -/
def mem_at_limit : Memory := fun a =>
  if a = 4200 then 0x10 else if a = 4201 then 0x20 else if a = 4202 then 0x30 else 0

/-- The signature of sixteen wildcards followed by the exact cell `AA`. -/
def sig_wild16_AA : signature := List.replicate 16 ⟨0, 0⟩ ++ [⟨0xAA, 0xFF⟩]

/-- A memory of zero bytes with `AA` at the address 4128. -/
def mem_AA_4128 : Memory := fun a => if a = 4128 then 0xAA else 0

/-- A memory of bytes `80` with `AB` at the address 4101. -/
def mem_80_AB_5 : Memory := fun a => if a = 4101 then 0xAB else 0x80

/-- A memory of zero bytes with `FF` at the address 4130. -/
def mem_FF_4130 : Memory := fun a => if a = 4130 then 0xFF else 0

/-- A signature of two cells with partial masks: `0F F0`. -/
def sig_0F_F0 : signature := [⟨0x02, 0x0F⟩, ⟨0x30, 0xF0⟩]

/-- A memory of zero bytes with `10 20 30` at the addresses 4221 to 4223. -/
def mem_10_20_30_last : Memory := fun a =>
  if a = 4221 then 0x10 else if a = 4222 then 0x20 else if a = 4223 then 0x30 else 0

/-- The memory `mem_wild` with the byte under the wildcard, at 4137, set to `00`. -/
def mem_wild_00 : Memory := fun a => if a = 4137 then 0x00 else mem_wild a

/-- A memory of bytes `80` holding `90 00 90` at the addresses 4200 to 4202. -/
def mem_wild_tail : Memory := fun a =>
  if a = 4200 then 0x90 else if a = 4201 then 0x00 else if a = 4202 then 0x90 else 0x80

/-- The memory `mem_wild_tail` with the byte under the wildcard, at 4201, set to `85`. -/
def mem_wild_tail_85 : Memory := fun a => if a = 4201 then 0x85 else mem_wild_tail a

/-! ## Bit-level facts about the intrinsics -/

theorem testBit_movemask_from (v : m256i) (n i j : Nat) :
    (movemask_from v i n).testBit j = (decide (j < n) && decide (v (i + j) / 128 % 2 = 1)) := by
  induction n generalizing i j with
  | zero => simp [movemask_from]
  | succ n ih =>
    cases j with
    | zero =>
      simp only [movemask_from, Nat.testBit_zero, Nat.add_zero]
      have h : (v i / 128 % 2 + 2 * movemask_from v (i + 1) n) % 2 = v i / 128 % 2 := by omega
      rw [h]; simp
    | succ j =>
      simp only [movemask_from, Nat.testBit_succ]
      have h : (v i / 128 % 2 + 2 * movemask_from v (i + 1) n) / 2 = movemask_from v (i + 1) n := by
        omega
      rw [h, ih]
      have e : i + 1 + j = i + (j + 1) := by omega
      rw [e]; simp

theorem testBit_movemask_epi8 (v : m256i) (j : Nat) :
    (movemask_epi8 v).testBit j = (decide (j < 32) && decide (v j / 128 % 2 = 1)) := by
  unfold movemask_epi8
  rw [testBit_movemask_from]; simp

theorem movemask_epi8_lt (v : m256i) : movemask_epi8 v < 2 ^ 32 := by
  apply Nat.lt_pow_two_of_testBit
  intro i hi
  rw [testBit_movemask_epi8]
  have : ¬ i < 32 := by omega
  simp [this]

theorem eq_zero_iff_testBit (m : Nat) : m = 0 ↔ ∀ i, m.testBit i = false := by
  constructor
  · intro h i; subst h; exact Nat.zero_testBit i
  · intro h
    apply Nat.eq_of_testBit_eq
    intro i; rw [h i, Nat.zero_testBit]

theorem tzcnt_upto_spec (n : Nat) : ∀ m : Nat, (∃ i, i < n ∧ m.testBit i = true) →
    tzcnt_upto n m < n ∧ m.testBit (tzcnt_upto n m) = true ∧
      ∀ j, j < tzcnt_upto n m → m.testBit j = false := by
  induction n with
  | zero => intro m ⟨i, hi, _⟩; omega
  | succ n ih =>
    intro m ⟨i, hi, hb⟩
    by_cases h0 : m % 2 = 1
    · simp only [tzcnt_upto, h0, if_true]
      refine ⟨by omega, by simp [Nat.testBit_zero, h0], fun j hj => by omega⟩
    · simp only [tzcnt_upto, h0, if_false]
      cases i with
      | zero => simp [Nat.testBit_zero, h0] at hb
      | succ i =>
        rw [Nat.testBit_succ] at hb
        obtain ⟨h1, h2, h3⟩ := ih (m / 2) ⟨i, by omega, hb⟩
        refine ⟨by omega, ?_, ?_⟩
        · rw [Nat.add_comm, Nat.testBit_succ]; exact h2
        · intro j hj
          cases j with
          | zero => simp [Nat.testBit_zero, h0]
          | succ j => rw [Nat.testBit_succ]; exact h3 j (by omega)

theorem testBit_blsr_upto (n : Nat) : ∀ m j : Nat, (∃ i, i < n ∧ m.testBit i = true) →
    ((m - 1) &&& m).testBit j = (m.testBit j && decide (j ≠ tzcnt_upto n m)) := by
  induction n with
  | zero => intro m j ⟨i, hi, _⟩; omega
  | succ n ih =>
    intro m j ⟨i, hi, hb⟩
    rw [Nat.testBit_land]
    by_cases h0 : m % 2 = 1
    · simp only [tzcnt_upto, h0, if_true]
      cases j with
      | zero =>
        have : (m - 1) % 2 ≠ 1 := by omega
        simp [Nat.testBit_zero, this]
      | succ j =>
        have e : (m - 1) / 2 = m / 2 := by omega
        simp [Nat.testBit_succ, e]
    · simp only [tzcnt_upto, h0, if_false]
      cases i with
      | zero => simp [Nat.testBit_zero, h0] at hb
      | succ i =>
        rw [Nat.testBit_succ] at hb
        cases j with
        | zero => simp [Nat.testBit_zero, h0]
        | succ j =>
          have hm : m / 2 ≠ 0 := by
            intro hz; rw [hz, Nat.zero_testBit] at hb; exact Bool.noConfusion hb
          have e : (m - 1) / 2 = m / 2 - 1 := by omega
          have := ih (m / 2) j ⟨i, by omega, hb⟩
          rw [Nat.testBit_land] at this
          rw [Nat.testBit_succ, Nat.testBit_succ, e, this]
          have e2 : (j + 1 ≠ 1 + tzcnt_upto n (m / 2)) ↔ (j ≠ tzcnt_upto n (m / 2)) := by omega
          simp [e2]

theorem exists_testBit_of_ne_zero {m : Nat} (hm : m < 2 ^ 32) (h0 : m ≠ 0) :
    ∃ i, i < 32 ∧ m.testBit i = true := by
  by_contra hc
  apply h0
  rw [eq_zero_iff_testBit]
  intro i
  by_cases hi : i < 32
  · by_contra hb
    exact hc ⟨i, hi, by simpa using hb⟩
  · exact Nat.testBit_lt_two_pow (lt_of_lt_of_le hm (Nat.pow_le_pow_right (by omega) (by omega)))

theorem tzcnt_u32_spec {m : Nat} (hm : m < 2 ^ 32) (h0 : m ≠ 0) :
    tzcnt_u32 m < 32 ∧ m.testBit (tzcnt_u32 m) = true ∧
      ∀ j, j < tzcnt_u32 m → m.testBit j = false :=
  tzcnt_upto_spec 32 m (exists_testBit_of_ne_zero hm h0)

theorem testBit_blsr_u32 {m : Nat} (hm : m < 2 ^ 32) (h0 : m ≠ 0) (j : Nat) :
    (blsr_u32 m).testBit j = (m.testBit j && decide (j ≠ tzcnt_u32 m)) :=
  testBit_blsr_upto 32 m j (exists_testBit_of_ne_zero hm h0)

theorem blsr_u32_lt {m : Nat} (hm : m < 2 ^ 32) : blsr_u32 m < 2 ^ 32 :=
  lt_of_le_of_lt Nat.and_le_right hm

/-! ## The `while (mask)` loops visit the set lanes in ascending order -/

theorem findSome?_congr_mem {α β : Type} (f g : α → Option β) (l : List α)
    (h : ∀ x, x ∈ l → f x = g x) : l.findSome? f = l.findSome? g := by
  induction l with
  | nil => rfl
  | cons a l ih =>
    simp only [List.findSome?_cons]
    rw [h a (List.mem_cons_self a l), ih (fun x hx => h x (List.mem_cons_of_mem a hx))]

/-- The set lanes of `mask` from lane `k` on, visited in ascending order. -/
theorem mask_loop_range (f : Nat → Option (Option Nat)) :
    ∀ (fuel mask k : Nat), 32 ≤ k + fuel → mask < 2 ^ 32 → (∀ j, j < k → mask.testBit j = false) →
      mask_loop f fuel mask =
        (List.range' k (32 - k)).findSome? (fun i => if mask.testBit i = true then f i else none) := by
  intro fuel
  induction fuel with
  | zero =>
    intro mask k hk hm hlow
    have hz : mask = 0 := by
      rw [eq_zero_iff_testBit]
      intro i
      by_cases hi : i < k
      · exact hlow i hi
      · exact Nat.testBit_lt_two_pow
          (lt_of_lt_of_le hm (Nat.pow_le_pow_right (by omega) (by omega)))
    have : 32 - k = 0 := by omega
    simp [mask_loop, this]
  | succ fuel ih =>
    intro mask k hk hm hlow
    by_cases h0 : mask = 0
    · subst h0
      simp only [mask_loop, if_true]
      symm
      rw [List.findSome?_eq_none_iff]
      intro x _
      simp
    · obtain ⟨ht, hbit, hmin⟩ := tzcnt_u32_spec hm h0
      have hkt : k ≤ tzcnt_u32 mask := by
        by_contra hc
        have := hlow (tzcnt_u32 mask) (by omega)
        rw [hbit] at this; exact Bool.noConfusion this
      have hsplit : List.range' k (32 - k) =
          List.range' k (tzcnt_u32 mask - k) ++
            (tzcnt_u32 mask :: List.range' (tzcnt_u32 mask + 1) (32 - (tzcnt_u32 mask + 1))) := by
        have h1 := List.range'_append k (tzcnt_u32 mask - k) (32 - tzcnt_u32 mask) 1
        have e1 : k + 1 * (tzcnt_u32 mask - k) = tzcnt_u32 mask := by omega
        have e2 : 32 - tzcnt_u32 mask + (tzcnt_u32 mask - k) = 32 - k := by omega
        have e3 : 32 - tzcnt_u32 mask = (32 - (tzcnt_u32 mask + 1)) + 1 := by omega
        rw [e1, e2] at h1
        rw [← h1, e3, List.range'_succ]
      have hfirst : (List.range' k (tzcnt_u32 mask - k)).findSome?
          (fun i => if mask.testBit i = true then f i else none) = none := by
        rw [List.findSome?_eq_none_iff]
        intro x hx
        rw [List.mem_range'_1] at hx
        simp [hmin x (by omega)]
      rw [hsplit, List.findSome?_append, hfirst, Option.none_or, List.findSome?_cons]
      simp only [mask_loop, h0, if_false, hbit, if_true]
      cases hf : f (tzcnt_u32 mask) with
      | some r => rfl
      | none =>
        simp only []
        rw [ih (blsr_u32 mask) (tzcnt_u32 mask + 1) (by omega) (blsr_u32_lt hm)]
        · apply findSome?_congr_mem
          intro x hx
          rw [List.mem_range'_1] at hx
          rw [testBit_blsr_u32 hm h0]
          have : x ≠ tzcnt_u32 mask := by omega
          simp [this]
        · intro j hj
          rw [testBit_blsr_u32 hm h0]
          by_cases hjt : j = tzcnt_u32 mask
          · simp [hjt]
          · rw [hmin j (by omega)]; rfl

/-- The loop returns at the first set lane whose body returns. -/
theorem mask_loop_some {f : Nat → Option (Option Nat)} {mask i : Nat} {r : Option Nat}
    (hm : mask < 2 ^ 32) (hi : i < 32) (hb : mask.testBit i = true) (hf : f i = some r)
    (hprev : ∀ j, j < i → mask.testBit j = true → f j = none) :
    mask_loop f 32 mask = some r := by
  rw [mask_loop_range f 32 mask 0 (by omega) hm (fun j hj => by omega)]
  have h1 := List.range'_append 0 i (32 - i) 1
  have e2 : 32 - i + i = 32 := by omega
  have e3 : 32 - i = (32 - (i + 1)) + 1 := by omega
  rw [e2] at h1
  simp only [Nat.sub_zero]
  rw [← h1, List.findSome?_append]
  have hfirst : (List.range' 0 i).findSome?
      (fun i => if mask.testBit i = true then f i else none) = none := by
    rw [List.findSome?_eq_none_iff]
    intro x hx
    rw [List.mem_range'_1] at hx
    by_cases hx2 : mask.testBit x = true
    · simp [hx2, hprev x (by omega) hx2]
    · simp [hx2]
  rw [hfirst, Option.none_or, e3, List.range'_succ, List.findSome?_cons]
  simp [hb, hf]

/-- The loop falls through when the body falls through at every set lane. -/
theorem mask_loop_none {f : Nat → Option (Option Nat)} {mask : Nat}
    (hm : mask < 2 ^ 32) (h : ∀ i, i < 32 → mask.testBit i = true → f i = none) :
    mask_loop f 32 mask = none := by
  rw [mask_loop_range f 32 mask 0 (by omega) hm (fun j hj => by omega)]
  rw [List.findSome?_eq_none_iff]
  intro x hx
  rw [List.mem_range'_1] at hx
  by_cases hx2 : mask.testBit x = true
  · simp [hx2, h x (by omega) hx2]
  · simp [hx2]

/-- A return of the loop comes from a set lane, all set lanes before it having fallen
through. -/
theorem mask_loop_cases {f : Nat → Option (Option Nat)} {mask : Nat} {r : Option Nat}
    (hm : mask < 2 ^ 32) (h : mask_loop f 32 mask = some r) :
    ∃ i, i < 32 ∧ mask.testBit i = true ∧ f i = some r ∧
      ∀ j, j < i → mask.testBit j = true → f j = none := by
  by_contra hc
  have hnone : mask_loop f 32 mask = none := by
    apply mask_loop_none hm
    intro i
    induction i using Nat.strong_induction_on with
    | _ i ihh =>
      intro hi hb
      cases hf : f i with
      | none => rfl
      | some r2 =>
        have h2 := mask_loop_some hm hi hb hf (fun j hj hbj => ihh j hj (by omega) hbj)
        rw [h] at h2
        have : r = r2 := Option.some.inj h2
        subst this
        exact absurd ⟨i, hi, hb, hf, fun j hj hbj => ihh j hj (by omega) hbj⟩ hc
  rw [h] at hnone
  exact Option.noConfusion hnone

/-! ## The anchor masks, lane by lane -/

theorem cmpeq_lane (a b : m256i) (i : Nat) :
    decide (cmpeq_epi8 a b i / 128 % 2 = 1) = decide (a i = b i) := by
  unfold cmpeq_epi8
  by_cases h : a i = b i <;> simp [h]

theorem cmpgt_lane (a b : m256i) (i : Nat) :
    decide (cmpgt_epi8 a b i / 128 % 2 = 1) = decide (toInt8 (a i) > toInt8 (b i)) := by
  unfold cmpgt_epi8
  by_cases h : toInt8 (a i) > toInt8 (b i) <;> simp [h]

theorem testBit_anchor_mask0 (C0 : cmp_type) (mem : Memory) (c : sig_element) (ptr i : Nat) :
    (anchor_mask0 C0 (loadu_si256 mem ptr) (set1_epi8 c.byte) (set1_epi8 c.mask)).testBit i =
      (decide (i < 32) && lane_hit C0 mem c (ptr + i)) := by
  unfold anchor_mask0 lane_hit
  by_cases h : C0 = cmp_type.masked
  · simp only [h, if_true]
    rw [testBit_movemask_epi8, cmpeq_lane]
    simp [and_si256, loadu_si256, set1_epi8]
  · simp only [h, if_false]
    rw [testBit_movemask_epi8, cmpeq_lane]
    simp [loadu_si256, set1_epi8]

theorem anchor_mask0_lt (C0 : cmp_type) (memv b0 m0 : m256i) :
    anchor_mask0 C0 memv b0 m0 < 2 ^ 32 := by
  unfold anchor_mask0
  split <;> exact movemask_epi8_lt _

theorem testBit_anchor_mask1 (C1 : cmp_type) (mem : Memory) (c : sig_element)
    (ptr mask i : Nat) :
    (anchor_mask1 C1 (loadu_si256 mem ptr) (set1_epi8 c.byte) (set1_epi8 c.mask) mask).testBit i =
      (mask.testBit i && (decide (C1 = cmp_type.none) || decide (i = 31) ||
        (decide (i + 1 < 32) && lane_hit C1 mem c (ptr + (i + 1))))) := by
  unfold anchor_mask1
  by_cases h : C1 = cmp_type.none
  · simp [h]
  · simp only [h, if_false, decide_False, Bool.false_or]
    rw [Nat.testBit_land, Nat.testBit_lor, Nat.testBit_shiftRight, Nat.testBit_shiftLeft]
    have h31 : (decide (i ≥ 31) && Nat.testBit 1 (i - 31)) = decide (i = 31) := by
      by_cases hi : i = 31
      · subst hi; decide
      · by_cases hi2 : i ≥ 31
        · have : Nat.testBit 1 (i - 31) = false := by
            by_contra hc
            have := Nat.testBit_one_eq_true_iff_self_eq_zero.1 (by simpa using hc)
            omega
          simp [this, hi]
        · simp [hi, hi2]
    rw [h31]
    have hm : (if C1 = cmp_type.masked then
          movemask_epi8 (cmpeq_epi8 (and_si256 (loadu_si256 mem ptr) (set1_epi8 c.mask)) (set1_epi8 c.byte))
        else movemask_epi8 (cmpeq_epi8 (loadu_si256 mem ptr) (set1_epi8 c.byte))).testBit (1 + i) =
        (decide (i + 1 < 32) && lane_hit C1 mem c (ptr + (i + 1))) := by
      have := testBit_anchor_mask0 C1 mem c ptr (i + 1)
      unfold anchor_mask0 at this
      rw [Nat.add_comm 1 i]
      exact this
    rw [hm, Bool.or_comm]

theorem anchor_mask1_lt (C1 : cmp_type) (memv b1 m1 : m256i) (mask : Nat) (hm : mask < 2 ^ 32) :
    anchor_mask1 C1 memv b1 m1 mask < 2 ^ 32 := by
  unfold anchor_mask1
  split
  · exact hm
  · exact lt_of_le_of_lt Nat.and_le_left hm

/-! ## The lanes kept by the head pass -/

theorem lor_31 (ptr : Nat) : ptr ||| 31 = ptr / 32 * 32 + 31 := by
  apply Nat.eq_of_testBit_eq
  intro j
  have e : ptr / 32 * 32 + 31 = 2 ^ 5 * (ptr / 32) + 31 := by omega
  rw [e, Nat.testBit_mul_pow_two_add (ptr / 32) (by decide : 31 < 2 ^ 5) j, Nat.testBit_lor]
  have h31 : Nat.testBit 31 j = decide (j < 5) := Nat.testBit_two_pow_sub_one 5 j
  rw [h31]
  by_cases hj : j < 5
  · simp [hj]
  · have e2 : ptr / 32 = ptr >>> 5 := by rw [Nat.shiftRight_eq_div_pow]
    rw [e2, Nat.testBit_shiftRight]
    have e3 : 5 + (j - 5) = j := by omega
    simp [hj, e3]

theorem head_lanes_eq (ptr : Nat) :
    head_lanes ptr = if ptr / 32 % 8 = 0 then 1 else 0xFFFFFFFF := by
  unfold head_lanes bzhi_u32
  rw [lor_31]
  by_cases h : ptr / 32 % 8 = 0
  · have e : (32 + 18446744073709551616 - (ptr / 32 * 32 + 31) % 18446744073709551616)
        % 18446744073709551616 % 4294967296 % 256 = 1 := by omega
    rw [e]; simp [h]
  · have e : ¬ (32 + 18446744073709551616 - (ptr / 32 * 32 + 31) % 18446744073709551616)
        % 18446744073709551616 % 4294967296 % 256 < 32 := by omega
    simp [e, h]

theorem testBit_head_lanes (ptr i : Nat) (hi : i < 32) :
    (head_lanes ptr).testBit i = (decide (ptr / 32 % 8 ≠ 0) || decide (i = 0)) := by
  rw [head_lanes_eq]
  by_cases h : ptr / 32 % 8 = 0
  · simp only [h, if_true]
    by_cases h0 : i = 0
    · subst h0; decide
    · have : Nat.testBit 1 i = false := by
        by_contra hc
        exact h0 (Nat.testBit_one_eq_true_iff_self_eq_zero.1 (by simpa using hc))
      simp [this, h0]
  · simp only [h, if_false]
    have : Nat.testBit 4294967295 i = decide (i < 32) := Nat.testBit_two_pow_sub_one 32 i
    rw [this]; simp [hi, h]

/-! ## The full-signature check is the masked match -/

theorem std_equal_iff (cs : List sig_element) (mem : Memory) (p : Nat) :
    std_equal cs mem p = true ↔
      ∀ i, i < cs.length → cell_eq (cs.getD i ⟨0, 0⟩) (rd mem (p + i)) = true := by
  induction cs generalizing p with
  | nil => simp [std_equal]
  | cons c cs ih =>
    simp only [std_equal, Bool.and_eq_true, ih, List.length_cons]
    constructor
    · intro ⟨h0, h1⟩ i hi
      cases i with
      | zero => simpa using h0
      | succ i =>
        have := h1 i (by omega)
        have e : p + 1 + i = p + (i + 1) := by omega
        rw [e] at this
        simpa using this
    · intro h
      refine ⟨by simpa using h 0 (by omega), fun i hi => ?_⟩
      have := h (i + 1) (by omega)
      have e : p + 1 + i = p + (i + 1) := by omega
      rw [e]
      simpa using this

theorem matchAt_iff (mem : Memory) (sig : signature) (p : Nat) :
    matchAt mem sig p = true ↔
      ∀ i, i < sig.length → cell_eq (sig_at sig i) (rd mem (p + i)) = true := by
  unfold matchAt sig_at
  exact std_equal_iff sig mem p

theorem movemask_epi8_eq_full (v : m256i) :
    movemask_epi8 v = 0xFFFFFFFF ↔ ∀ i, i < 32 → v i / 128 % 2 = 1 := by
  constructor
  · intro h i hi
    have := testBit_movemask_epi8 v i
    rw [h] at this
    have h2 : Nat.testBit 4294967295 i = decide (i < 32) := Nat.testBit_two_pow_sub_one 32 i
    rw [h2] at this
    simpa [hi] using this.symm
  · intro h
    apply Nat.eq_of_testBit_eq
    intro i
    have h2 : Nat.testBit 4294967295 i = decide (i < 32) := Nat.testBit_two_pow_sub_one 32 i
    rw [testBit_movemask_epi8, h2]
    by_cases hi : i < 32
    · simp [hi, h i hi]
    · simp [hi]

theorem movemask_epi8_eq_zero (v : m256i) :
    movemask_epi8 v = 0 ↔ ∀ i, i < 32 → ¬ v i / 128 % 2 = 1 := by
  rw [eq_zero_iff_testBit]
  constructor
  · intro h i hi
    have := h i
    rw [testBit_movemask_epi8] at this
    simpa [hi] using this
  · intro h i
    rw [testBit_movemask_epi8]
    by_cases hi : i < 32
    · simp [hi, h i hi]
    · simp [hi]

/-- The 32-lane comparison of the candidate check holds exactly when the first 32 cells
match. -/
theorem window_check_iff (mem : Memory) (sig : signature) (m : Nat) :
    movemask_epi8 (cmpeq_epi8 (and_si256 (loadu_si256 mem m) (load_sig_256_32 sig).2)
        (load_sig_256_32 sig).1) = 0xFFFFFFFF ↔
      ∀ i, i < sig.length → i < 32 → cell_eq (sig_at sig i) (rd mem (m + i)) = true := by
  rw [movemask_epi8_eq_full]
  constructor
  · intro h i hi hi2
    have := h i hi2
    have h2 := cmpeq_lane (and_si256 (loadu_si256 mem m) (load_sig_256_32 sig).2)
      (load_sig_256_32 sig).1 i
    rw [decide_eq_true this] at h2
    have h3 := of_decide_eq_true h2.symm
    simp only [and_si256, loadu_si256, load_sig_256_32, hi, hi2, if_true] at h3
    simp [cell_eq, h3]
  · intro h i hi2
    have h2 := cmpeq_lane (and_si256 (loadu_si256 mem m) (load_sig_256_32 sig).2)
      (load_sig_256_32 sig).1 i
    have h3 : and_si256 (loadu_si256 mem m) (load_sig_256_32 sig).2 i = (load_sig_256_32 sig).1 i := by
      simp only [and_si256, loadu_si256, load_sig_256_32, hi2, if_true]
      by_cases hi : i < sig.length
      · have := h i hi hi2
        simp only [cell_eq, beq_iff_eq] at this
        simp [hi, this]
      · simp [hi]
    rw [decide_eq_true h3] at h2
    exact of_decide_eq_true h2

theorem verify_candidate_iff (mem : Memory) (sig : signature) (m : Nat) :
    verify_candidate (dispatch_SigExt sig) mem sig (load_sig_256_32 sig).1 (load_sig_256_32 sig).2 m
      = true ↔ matchAt mem sig m = true := by
  unfold verify_candidate
  simp only []
  rw [matchAt_iff]
  by_cases hw : movemask_epi8 (cmpeq_epi8 (and_si256 (loadu_si256 mem m) (load_sig_256_32 sig).2)
        (load_sig_256_32 sig).1) = 0xFFFFFFFF
  · rw [if_pos hw]
    rw [window_check_iff] at hw
    by_cases hext : sig.length > 32
    · have he : dispatch_SigExt sig = true := by
        unfold dispatch_SigExt
        simp [hext]; omega
      rw [he]
      simp only [Bool.not_true, Bool.false_eq_true, if_false]
      rw [std_equal_iff]
      constructor
      · intro h i hi
        by_cases hi2 : i < 32
        · exact hw i hi hi2
        · have := h (i - 32) (by rw [List.length_drop]; omega)
          have e1 : m + 32 + (i - 32) = m + i := by omega
          have e2 : (List.drop 32 sig).getD (i - 32) ⟨0, 0⟩ = sig_at sig i := by
            unfold sig_at
            rw [List.getD_eq_getElem?_getD, List.getD_eq_getElem?_getD, List.getElem?_drop]
            congr 2; omega
          rw [e1, e2] at this
          exact this
      · intro h i hi
        rw [List.length_drop] at hi
        have := h (32 + i) (by omega)
        have e1 : m + 32 + i = m + (32 + i) := by omega
        have e2 : (List.drop 32 sig).getD i ⟨0, 0⟩ = sig_at sig (32 + i) := by
          unfold sig_at
          rw [List.getD_eq_getElem?_getD, List.getD_eq_getElem?_getD, List.getElem?_drop]
        rw [e1, e2]
        exact this
    · have he : dispatch_SigExt sig = false := by
        unfold dispatch_SigExt
        simp [hext]
      rw [he]
      simp only [Bool.not_false, if_true, true_iff]
      intro i hi
      exact hw i hi (by omega)
  · rw [if_neg hw]
    rw [window_check_iff] at hw
    simp only [Bool.false_eq_true, false_iff]
    intro h
    exact hw (fun i hi _ => h i hi)

/-! ## Anchor selection -/

/-- The state of the loop of `find_twobyte_idx` after the positions `1 .. n`. -/
theorem find_twobyte_idx_loop_inv (sig : signature) (n : Nat) (hn : n + 1 ≤ sig.length) :
    let best := (List.range' 1 n).foldl (find_twobyte_idx_step sig) 0
    best < n + 1 ∧ (best = 0 ∨ (sig_at sig best).mask ≠ 0) ∧
      (∀ i, i < n + 1 → (i = 0 ∨ (sig_at sig i).mask ≠ 0) → anchor_score sig i ≤ anchor_score sig best) ∧
      (∀ j, j < best → (j = 0 ∨ (sig_at sig j).mask ≠ 0) → anchor_score sig j < anchor_score sig best) := by
  induction n with
  | zero =>
    simp only [List.range'_zero, List.foldl_nil]
    refine ⟨by omega, Or.inl trivial, ?_, ?_⟩
    · intro i hi _
      have : i = 0 := by omega
      subst this; exact le_refl _
    · intro j hj; omega
  | succ n ih =>
    have ih := ih (by omega)
    simp only [] at ih ⊢
    rw [List.range'_concat, List.foldl_append]
    simp only [List.foldl_cons, List.foldl_nil, Nat.one_mul]
    generalize (List.range' 1 n).foldl (find_twobyte_idx_step sig) 0 = best at ih ⊢
    obtain ⟨hb, hc, hmax, hmin⟩ := ih
    have hbc : popcount (sig_at sig best).mask + popcount (sig_at sig (best + 1)).mask =
        anchor_score sig best := by
      unfold anchor_score
      rw [if_pos (by omega)]
    unfold find_twobyte_idx_step
    by_cases hz : (sig_at sig (1 + n)).mask = 0
    · rw [if_pos hz]
      refine ⟨by omega, hc, ?_, hmin⟩
      intro i hi hci
      by_cases hin : i = 1 + n
      · subst hin
        rcases hci with h | h
        · omega
        · exact absurd hz h
      · exact hmax i (by omega) hci
    · rw [if_neg hz]
      simp only []
      rw [hbc]
      have hic : popcount (sig_at sig (1 + n)).mask +
          (if 1 + n + 1 < sig.length then popcount (sig_at sig (1 + n + 1)).mask else 0) =
          anchor_score sig (1 + n) := rfl
      rw [hic]
      by_cases hgt : anchor_score sig (1 + n) > anchor_score sig best
      · rw [if_pos hgt]
        refine ⟨by omega, Or.inr hz, ?_, ?_⟩
        · intro i hi hci
          by_cases hin : i = 1 + n
          · subst hin; exact le_refl _
          · have := hmax i (by omega) hci
            omega
        · intro j hj hcj
          have := hmax j (by omega) hcj
          omega
      · rw [if_neg hgt]
        refine ⟨by omega, hc, ?_, hmin⟩
        intro i hi hci
        by_cases hin : i = 1 + n
        · subst hin; omega
        · exact hmax i (by omega) hci

theorem find_twobyte_idx_lt (sig : signature) (hne : sig ≠ []) :
    find_twobyte_idx sig < sig.length := by
  have hlen : 0 < sig.length := List.length_pos.2 hne
  unfold find_twobyte_idx
  split
  · exact hlen
  · have := (find_twobyte_idx_loop_inv sig (sig.length - 1) (by omega)).1
    omega

/-- The state of the loop of `find_maxbyte_idx` after the positions `1 .. n`. -/
theorem find_maxbyte_idx_loop_inv (sig : signature) (n : Nat) :
    let st := (List.range' 1 n).foldl (find_maxbyte_idx_step sig) ((sig_at sig 0).byte, 0)
    st.2 < n + 1 ∧ st.1 = (sig_at sig st.2).byte ∧
      (∀ i, i < n + 1 → (sig_at sig i).byte ≤ st.1) ∧
      (∀ j, j < st.2 → (sig_at sig j).byte < st.1) := by
  induction n with
  | zero =>
    simp only [List.range'_zero, List.foldl_nil]
    refine ⟨by omega, trivial, ?_, ?_⟩
    · intro i hi
      have : i = 0 := by omega
      subst this; exact le_refl _
    · intro j hj; omega
  | succ n ih =>
    simp only [] at ih ⊢
    rw [List.range'_concat, List.foldl_append]
    simp only [List.foldl_cons, List.foldl_nil, Nat.one_mul]
    generalize (List.range' 1 n).foldl (find_maxbyte_idx_step sig) ((sig_at sig 0).byte, 0) = st
      at ih ⊢
    obtain ⟨hb, he, hmax, hmin⟩ := ih
    unfold find_maxbyte_idx_step
    by_cases hgt : (sig_at sig (1 + n)).byte > st.1
    · rw [if_pos hgt]
      refine ⟨by simp only []; omega, rfl, ?_, ?_⟩
      · intro i hi
        by_cases hin : i = 1 + n
        · subst hin; exact le_refl _
        · have := hmax i (by omega)
          simp only []; omega
      · intro j hj
        have := hmax j (by simp only [] at hj; omega)
        simp only []; omega
    · rw [if_neg hgt]
      refine ⟨by omega, he, ?_, hmin⟩
      intro i hi
      by_cases hin : i = 1 + n
      · subst hin; omega
      · exact hmax i (by omega)

/-! ## Cells and lanes -/

theorem sig_at_mem (sig : signature) (i : Nat) (hi : i < sig.length) : sig_at sig i ∈ sig := by
  unfold sig_at
  rw [List.getD_eq_getElem sig _ hi]
  exact List.getElem_mem hi

theorem rd_lt (mem : Memory) (a : Nat) : rd mem a < 256 := Nat.mod_lt _ (by omega)

theorem and_255 (a : Nat) : a &&& 255 = a % 256 := Nat.and_pow_two_sub_one_eq_mod a 8

/-- A lane hit of the anchor comparison is a cell match, for byte-valued cells. -/
theorem cell_eq_of_lane_hit (C : cmp_type) (mem : Memory) (c : sig_element) (a : Nat)
    (hb : c.byte < 256) (hm : c.mask < 256) (hC : C = cmp_type.masked ∨ c.mask = 0xFF)
    (h : lane_hit C mem c a = true) : cell_eq c (rd mem a) = true := by
  unfold lane_hit at h
  unfold cell_eq
  rw [Nat.mod_eq_of_lt hb] at h
  by_cases hc : C = cmp_type.masked
  · rw [if_pos hc, Nat.mod_eq_of_lt hm] at h
    have h := of_decide_eq_true h
    rw [beq_iff_eq, ← h, Nat.land_assoc, Nat.and_self]
  · rw [if_neg hc] at h
    have h := of_decide_eq_true h
    have hF : c.mask = 0xFF := hC.resolve_left hc
    rw [beq_iff_eq, hF, h]

/-- A cell match is a lane hit of the anchor comparison, for byte-valued cells that
store their byte masked. -/
theorem lane_hit_of_cell_eq (C : cmp_type) (mem : Memory) (c : sig_element) (a : Nat)
    (hb : c.byte < 256) (hm : c.mask < 256) (hn : c.byte &&& c.mask = c.byte)
    (hC : C = cmp_type.masked ∨ c.mask = 0xFF)
    (h : cell_eq c (rd mem a) = true) : lane_hit C mem c a = true := by
  unfold cell_eq at h
  unfold lane_hit
  rw [beq_iff_eq, hn] at h
  rw [Nat.mod_eq_of_lt hb]
  by_cases hc : C = cmp_type.masked
  · rw [if_pos hc, Nat.mod_eq_of_lt hm]
    exact decide_eq_true h
  · rw [if_neg hc]
    have hF : c.mask = 0xFF := hC.resolve_left hc
    rw [hF, and_255, Nat.mod_eq_of_lt (rd_lt mem a)] at h
    exact decide_eq_true h

theorem dispatch_C0_cases (sig : signature) (i : Nat) :
    dispatch_C0 sig i = cmp_type.masked ∨ (sig_at sig i).mask = 0xFF := by
  unfold dispatch_C0
  by_cases h : (sig_at sig i).mask = 0xFF
  · exact Or.inr h
  · left; rw [if_pos h]

theorem dispatch_C1_cases (sig : signature) (i : Nat) :
    dispatch_C1 sig i = cmp_type.none ∨
      (i + 1 < sig.length ∧
        (dispatch_C1 sig i = cmp_type.masked ∨ (sig_at sig (i + 1)).mask = 0xFF)) := by
  unfold dispatch_C1
  by_cases h1 : i + 1 < sig.length
  · rw [if_pos h1]
    by_cases h2 : (sig_at sig (i + 1)).mask = 0xFF
    · exact Or.inr ⟨h1, Or.inr h2⟩
    · rw [if_neg h2]
      by_cases h3 : (sig_at sig (i + 1)).mask ≠ 0
      · rw [if_pos h3]; exact Or.inr ⟨h1, Or.inl rfl⟩
      · rw [if_neg h3]; exact Or.inl rfl
  · rw [if_neg h1]; exact Or.inl rfl

theorem dispatch_C1_none_iff (sig : signature) (i : Nat) :
    dispatch_C1 sig i = cmp_type.none ↔ (i + 1 < sig.length → (sig_at sig (i + 1)).mask = 0) := by
  unfold dispatch_C1
  by_cases h1 : i + 1 < sig.length
  · rw [if_pos h1]
    by_cases h2 : (sig_at sig (i + 1)).mask = 0xFF
    · rw [if_pos h2]; simp [h2, h1]
    · rw [if_neg h2]
      by_cases h3 : (sig_at sig (i + 1)).mask ≠ 0
      · rw [if_pos h3]; simp [h3, h1]
      · rw [if_neg h3]
        have : (sig_at sig (i + 1)).mask = 0 := by simpa using h3
        simp [this]
  · rw [if_neg h1]; simp [h1]

/-! ## The lane masks of a window -/

theorem testBit_anchor_mask (C0 C1 : cmp_type) (mem : Memory) (sig : signature)
    (idx ptr i : Nat) :
    (anchor_mask C0 C1 mem sig idx ptr).testBit i =
      ((decide (i < 32) && lane_hit C0 mem (sig_at sig idx) (ptr + i)) &&
        (decide (C1 = cmp_type.none) || decide (i = 31) ||
          (decide (i + 1 < 32) && lane_hit C1 mem (sig_at sig (idx + 1)) (ptr + (i + 1))))) := by
  unfold anchor_mask
  simp only []
  rw [testBit_anchor_mask1, testBit_anchor_mask0]

theorem anchor_mask_lt (C0 C1 : cmp_type) (mem : Memory) (sig : signature) (idx ptr : Nat) :
    anchor_mask C0 C1 mem sig idx ptr < 2 ^ 32 := by
  unfold anchor_mask
  exact anchor_mask1_lt _ _ _ _ _ (anchor_mask0_lt _ _ _ _)

theorem testBit_head_mask (C0 C1 : cmp_type) (mem : Memory) (sig : signature)
    (idx ptr i : Nat) :
    (head_mask C0 C1 mem sig idx ptr).testBit i =
      ((anchor_mask C0 C1 mem sig idx ptr).testBit i &&
        (decide (ptr / 32 % 8 ≠ 0) || decide (i = 0))) := by
  rw [testBit_anchor_mask]
  unfold head_mask
  simp only []
  rw [testBit_anchor_mask1, Nat.testBit_land, testBit_anchor_mask0]
  by_cases hi : i < 32
  · rw [testBit_head_lanes ptr i hi]
    simp only [hi, decide_True, Bool.true_and]
    cases lane_hit C0 mem (sig_at sig idx) (ptr + i) <;>
      cases (decide (ptr / 32 % 8 ≠ 0) || decide (i = 0)) <;> simp
  · simp [hi]

theorem head_mask_lt (C0 C1 : cmp_type) (mem : Memory) (sig : signature) (idx ptr : Nat) :
    head_mask C0 C1 mem sig idx ptr < 2 ^ 32 := by
  unfold head_mask
  exact anchor_mask1_lt _ _ _ _ _ (lt_of_le_of_lt Nat.and_le_left (anchor_mask0_lt _ _ _ _))

theorem toInt8_mod (x : Nat) : toInt8 (x % 256) = toInt8 x := by
  unfold toInt8
  rw [Nat.mod_mod]

/-- The quick-reject test skips the window exactly when one of its 32 bytes is greater,
as a signed byte, than the byte of the cell `maxbyte_idx`. -/
theorem quick_reject_iff (mem : Memory) (sig : signature) (maxbyte_idx ptr : Nat) :
    quick_reject mem sig maxbyte_idx ptr = true ↔
      ∃ i, i < 32 ∧ toInt8 (rd mem (ptr + i)) > toInt8 (sig_at sig maxbyte_idx).byte := by
  unfold quick_reject
  rw [decide_eq_true_iff, Ne, movemask_epi8_eq_zero]
  constructor
  · intro h
    by_contra hc
    apply h
    intro i hi hl
    apply hc
    have h2 := cmpgt_lane (loadu_si256 mem ptr) (set1_epi8 (sig_at sig maxbyte_idx).byte) i
    rw [decide_eq_true hl] at h2
    have h3 := of_decide_eq_true h2.symm
    simp only [loadu_si256, set1_epi8, toInt8_mod] at h3
    exact ⟨i, hi, h3⟩
  · intro ⟨i, hi, hgt⟩ h
    apply h i hi
    have h2 := cmpgt_lane (loadu_si256 mem ptr) (set1_epi8 (sig_at sig maxbyte_idx).byte) i
    have h3 : toInt8 (loadu_si256 mem ptr i) > toInt8 (set1_epi8 (sig_at sig maxbyte_idx).byte i) := by
      simp only [loadu_si256, set1_epi8, toInt8_mod]
      exact hgt
    rw [decide_eq_true h3] at h2
    exact of_decide_eq_true h2

/-! ## The aligned-body loop, window by window -/

theorem body_loop_found (C0 C1 CSig : cmp_type) (SigExt : Bool) (CExt : cmp_type_extop)
    (mem : Memory) (sig : signature) (idx maxidx end_adj : Nat) (r : Option Nat) :
    ∀ (k fuel ptr : Nat), k < fuel → ptr + 32 * k < end_adj →
      (∀ j, j < k →
        body_window C0 C1 CSig SigExt CExt mem sig idx maxidx end_adj (ptr + 32 * j) = none) →
      body_window C0 C1 CSig SigExt CExt mem sig idx maxidx end_adj (ptr + 32 * k) = some r →
      body_loop C0 C1 CSig SigExt CExt mem sig idx maxidx end_adj fuel ptr = some r := by
  intro k
  induction k with
  | zero =>
    intro fuel ptr hf hlt _ hw
    cases fuel with
    | zero => omega
    | succ fuel =>
      simp only [Nat.mul_zero, Nat.add_zero] at hlt hw
      simp only [body_loop, hlt, if_true, hw]
  | succ k ih =>
    intro fuel ptr hf hlt hprev hw
    cases fuel with
    | zero => omega
    | succ fuel =>
      have h0 := hprev 0 (by omega)
      simp only [Nat.mul_zero, Nat.add_zero] at h0
      have hlt0 : ptr < end_adj := by omega
      simp only [body_loop, hlt0, if_true, h0]
      apply ih fuel (ptr + 32) (by omega) (by omega)
      · intro j hj
        have := hprev (j + 1) (by omega)
        have e : ptr + 32 * (j + 1) = ptr + 32 + 32 * j := by omega
        rw [e] at this; exact this
      · have e : ptr + 32 * (k + 1) = ptr + 32 + 32 * k := by omega
        rw [e] at hw; exact hw

/-- The fuel of the aligned-body loop never runs out: every fuel of at least
`end_adj - ptr`, the fuel the template passes, gives the same result. -/
theorem body_loop_fuel (C0 C1 CSig : cmp_type) (SigExt : Bool) (CExt : cmp_type_extop)
    (mem : Memory) (sig : signature) (idx maxidx end_adj : Nat) :
    ∀ (fuel1 fuel2 ptr : Nat), end_adj - ptr ≤ fuel1 → end_adj - ptr ≤ fuel2 →
      body_loop C0 C1 CSig SigExt CExt mem sig idx maxidx end_adj fuel1 ptr =
        body_loop C0 C1 CSig SigExt CExt mem sig idx maxidx end_adj fuel2 ptr := by
  intro fuel1
  induction fuel1 with
  | zero =>
    intro fuel2 ptr h1 _
    cases fuel2 with
    | zero => rfl
    | succ f2 =>
      have hlt : ¬ ptr < end_adj := by omega
      simp only [body_loop, hlt, if_false]
  | succ f1 ih =>
    intro fuel2 ptr h1 h2
    cases fuel2 with
    | zero =>
      have hlt : ¬ ptr < end_adj := by omega
      simp only [body_loop, hlt, if_false]
    | succ f2 =>
      by_cases hlt : ptr < end_adj
      · simp only [body_loop, hlt, if_true]
        cases body_window C0 C1 CSig SigExt CExt mem sig idx maxidx end_adj ptr with
        | some r => rfl
        | none =>
          simp only []
          exact ih f2 (ptr + 32) (by omega) (by omega)
      · simp only [body_loop, hlt, if_false]

/-- The fuel of the `while (mask)` loops never runs out: every fuel of at least 32, the
fuel the passes use, gives the same result on a 32-bit mask. -/
theorem mask_loop_fuel (f : Nat → Option (Option Nat)) (fuel mask : Nat) (hf : 32 ≤ fuel)
    (hm : mask < 2 ^ 32) : mask_loop f fuel mask = mask_loop f 32 mask := by
  rw [mask_loop_range f fuel mask 0 (by omega) hm (fun j hj => by omega),
    mask_loop_range f 32 mask 0 (by omega) hm (fun j hj => by omega)]

theorem body_loop_none (C0 C1 CSig : cmp_type) (SigExt : Bool) (CExt : cmp_type_extop)
    (mem : Memory) (sig : signature) (idx maxidx end_adj : Nat) :
    ∀ (fuel ptr : Nat),
      (∀ j, ptr + 32 * j < end_adj →
        body_window C0 C1 CSig SigExt CExt mem sig idx maxidx end_adj (ptr + 32 * j) = none) →
      body_loop C0 C1 CSig SigExt CExt mem sig idx maxidx end_adj fuel ptr = none := by
  intro fuel
  induction fuel with
  | zero => intro ptr _; rfl
  | succ fuel ih =>
    intro ptr h
    by_cases hlt : ptr < end_adj
    · have h0 := h 0 (by omega)
      simp only [Nat.mul_zero, Nat.add_zero] at h0
      simp only [body_loop, hlt, if_true, h0]
      apply ih
      intro j hj
      have := h (j + 1) (by omega)
      have e : ptr + 32 * (j + 1) = ptr + 32 + 32 * j := by omega
      rw [e] at this; exact this
    · simp only [body_loop, hlt, if_false]

theorem body_loop_cases (C0 C1 CSig : cmp_type) (SigExt : Bool) (CExt : cmp_type_extop)
    (mem : Memory) (sig : signature) (idx maxidx end_adj : Nat) (r : Option Nat) :
    ∀ (fuel ptr : Nat),
      body_loop C0 C1 CSig SigExt CExt mem sig idx maxidx end_adj fuel ptr = some r →
      ∃ k, ptr + 32 * k < end_adj ∧
        body_window C0 C1 CSig SigExt CExt mem sig idx maxidx end_adj (ptr + 32 * k) = some r ∧
        ∀ j, j < k →
          body_window C0 C1 CSig SigExt CExt mem sig idx maxidx end_adj (ptr + 32 * j) = none := by
  intro fuel
  induction fuel with
  | zero => intro ptr h; simp [body_loop] at h
  | succ fuel ih =>
    intro ptr h
    by_cases hlt : ptr < end_adj
    · simp only [body_loop, hlt, if_true] at h
      cases hw : body_window C0 C1 CSig SigExt CExt mem sig idx maxidx end_adj ptr with
      | some r2 =>
        rw [hw] at h
        refine ⟨0, by omega, ?_, fun j hj => by omega⟩
        simp only [Nat.mul_zero, Nat.add_zero]
        rw [hw]; exact h
      | none =>
        rw [hw] at h
        obtain ⟨k, hk1, hk2, hk3⟩ := ih (ptr + 32) h
        refine ⟨k + 1, by omega, ?_, ?_⟩
        · have e : ptr + 32 * (k + 1) = ptr + 32 + 32 * k := by omega
          rw [e]; exact hk2
        · intro j hj
          cases j with
          | zero => simpa using hw
          | succ j =>
            have e : ptr + 32 * (j + 1) = ptr + 32 + 32 * j := by omega
            rw [e]; exact hk3 j (by omega)
    · simp [body_loop, hlt] at h

/-! ## Candidates of a window before and at the first match -/

theorem find_twobyte_idx_short (sig : signature) (h : sig.length ≤ 2) :
    find_twobyte_idx sig = 0 := by
  unfold find_twobyte_idx
  split
  · rfl
  · match sig, h with
    | [], _ => rfl
    | [_], _ => rfl
    | [a, b], _ =>
      simp only [List.length_cons, List.length_nil, List.range'_succ, List.range'_zero,
        List.foldl_cons, List.foldl_nil]
      unfold find_twobyte_idx_step
      split
      · rfl
      · simp only [List.length_cons, List.length_nil]
        simp

theorem dispatch_CSig_none_iff (sig : signature) :
    dispatch_CSig sig = cmp_type.none ↔ sig.length ≤ 2 := by
  unfold dispatch_CSig
  by_cases h : sig.length > 2
  · rw [if_pos h]; simp; omega
  · rw [if_neg h]; simp; omega

/-- The anchor lanes are set at the anchor position of every match. -/
theorem anchor_bit_of_match (mem : Memory) (sig : signature) (idx ptr i s : Nat)
    (hwf : sig_wf sig) (hnorm : sig_norm sig) (hidx : idx < sig.length) (hi : i < 32)
    (hy : ptr + i = s + idx) (hm : matchAt mem sig s = true) :
    (anchor_mask (dispatch_C0 sig idx) (dispatch_C1 sig idx) mem sig idx ptr).testBit i = true := by
  rw [matchAt_iff] at hm
  rw [testBit_anchor_mask]
  have hmem0 := sig_at_mem sig idx hidx
  have h0 : lane_hit (dispatch_C0 sig idx) mem (sig_at sig idx) (ptr + i) = true := by
    rw [hy]
    exact lane_hit_of_cell_eq _ mem _ _ (hwf _ hmem0).1 (hwf _ hmem0).2 (hnorm _ hmem0)
      (dispatch_C0_cases sig idx) (hm idx hidx)
  rw [h0]
  simp only [hi, decide_True, Bool.true_and, Bool.and_true]
  rcases dispatch_C1_cases sig idx with h1 | ⟨hlt, h1⟩
  · simp [h1]
  · by_cases h31 : i = 31
    · simp [h31]
    · have hmem1 := sig_at_mem sig (idx + 1) hlt
      have h2 : lane_hit (dispatch_C1 sig idx) mem (sig_at sig (idx + 1)) (ptr + (i + 1)) = true := by
        have e : ptr + (i + 1) = s + (idx + 1) := by omega
        rw [e]
        exact lane_hit_of_cell_eq _ mem _ _ (hwf _ hmem1).1 (hwf _ hmem1).2 (hnorm _ hmem1)
          h1 (hm (idx + 1) hlt)
      have h3 : i + 1 < 32 := by omega
      simp [h2, h3]

/-- For a signature of one cell, or of two cells the second of which is a wildcard, a set
anchor lane is a match. -/
theorem match_of_anchor_bit_short (mem : Memory) (sig : signature) (ptr i : Nat)
    (hwf : sig_wf sig)
    (hshort : sig.length = 1 ∨ (sig.length = 2 ∧ (sig_at sig 1).mask = 0))
    (hbit : (anchor_mask (dispatch_C0 sig 0) (dispatch_C1 sig 0) mem sig 0 ptr).testBit i = true) :
    matchAt mem sig (ptr + i) = true := by
  rw [testBit_anchor_mask] at hbit
  simp only [Bool.and_eq_true, decide_eq_true_eq] at hbit
  obtain ⟨⟨_, h0⟩, _⟩ := hbit
  have hlen : 0 < sig.length := by rcases hshort with h | ⟨h, _⟩ <;> omega
  have hmem0 := sig_at_mem sig 0 hlen
  have hc0 := cell_eq_of_lane_hit _ mem _ _ (hwf _ hmem0).1 (hwf _ hmem0).2
    (dispatch_C0_cases sig 0) h0
  rw [matchAt_iff]
  intro j hj
  by_cases hj0 : j = 0
  · subst hj0; simpa using hc0
  · rcases hshort with h | ⟨h, hz⟩
    · omega
    · have : j = 1 := by omega
      subst this
      unfold cell_eq
      rw [hz]; simp

theorem body_candidate_of_match (mem : Memory) (sig : signature) (idx end_adj ptr i s : Nat)
    (hshort : dispatch_CSig sig = cmp_type.none → idx = 0)
    (hy : ptr + i = s + idx) (hle : ptr + i ≤ end_adj) (hm : matchAt mem sig s = true) :
    body_candidate (dispatch_CSig sig) (dispatch_SigExt sig) mem sig idx end_adj ptr i =
      some (some s) := by
  unfold body_candidate
  simp only []
  rw [if_neg (by omega)]
  by_cases hc : dispatch_CSig sig = cmp_type.none
  · rw [if_pos hc]
    have := hshort hc
    have : ptr + i = s := by omega
    rw [this]
  · rw [if_neg hc]
    have e : ptr + i - idx = s := by omega
    rw [e, (verify_candidate_iff mem sig s).2 hm]
    rfl

theorem head_candidate_of_match (mem : Memory) (sig : signature) (idx ptr i s : Nat)
    (hshort : dispatch_CSig sig = cmp_type.none → idx = 0)
    (hy : ptr + i = s + idx) (hm : matchAt mem sig s = true) :
    head_candidate (dispatch_CSig sig) (dispatch_SigExt sig) mem sig idx ptr i =
      some (some s) := by
  unfold head_candidate
  simp only []
  by_cases hc : dispatch_CSig sig = cmp_type.none
  · rw [if_pos hc]
    have := hshort hc
    have : ptr + i = s := by omega
    rw [this]
  · rw [if_neg hc]
    have e : ptr + i - idx = s := by omega
    rw [e, (verify_candidate_iff mem sig s).2 hm]
    rfl

/-- What a returning head candidate returns: a match address. -/
theorem head_candidate_some (mem : Memory) (sig : signature) (ptr i : Nat) (r : Option Nat)
    (hwf : sig_wf sig)
    (hlen : sig.length = 1 ∨ 3 ≤ sig.length ∨ (sig.length = 2 ∧ (sig_at sig 1).mask = 0))
    (hbit : (anchor_mask (dispatch_C0 sig (find_twobyte_idx sig))
      (dispatch_C1 sig (find_twobyte_idx sig)) mem sig (find_twobyte_idx sig) ptr).testBit i = true)
    (h : head_candidate (dispatch_CSig sig) (dispatch_SigExt sig) mem sig (find_twobyte_idx sig)
      ptr i = some r) :
    r = some (ptr + i - find_twobyte_idx sig) ∧
      matchAt mem sig (ptr + i - find_twobyte_idx sig) = true := by
  unfold head_candidate at h
  simp only [] at h
  by_cases hc : dispatch_CSig sig = cmp_type.none
  · rw [if_pos hc] at h
    have hl := (dispatch_CSig_none_iff sig).1 hc
    have hidx := find_twobyte_idx_short sig hl
    rw [hidx] at hbit ⊢
    have hshort : sig.length = 1 ∨ (sig.length = 2 ∧ (sig_at sig 1).mask = 0) := by
      rcases hlen with h1 | h1 | h1
      · exact Or.inl h1
      · omega
      · exact Or.inr h1
    simp only [Nat.sub_zero]
    exact ⟨(Option.some.inj h).symm, match_of_anchor_bit_short mem sig ptr i hwf hshort hbit⟩
  · rw [if_neg hc] at h
    by_cases hv : verify_candidate (dispatch_SigExt sig) mem sig (load_sig_256_32 sig).1
        (load_sig_256_32 sig).2 (ptr + i - find_twobyte_idx sig) = true
    · rw [if_pos hv] at h
      exact ⟨(Option.some.inj h).symm, (verify_candidate_iff mem sig _).1 hv⟩
    · rw [if_neg hv] at h
      exact Option.noConfusion h

/-- What a returning body candidate returns: `nullptr` past the limit, else a match
address. -/
theorem body_candidate_some (mem : Memory) (sig : signature) (end_adj ptr i : Nat)
    (r : Option Nat) (hwf : sig_wf sig)
    (hlen : sig.length = 1 ∨ 3 ≤ sig.length ∨ (sig.length = 2 ∧ (sig_at sig 1).mask = 0))
    (hbit : (anchor_mask (dispatch_C0 sig (find_twobyte_idx sig))
      (dispatch_C1 sig (find_twobyte_idx sig)) mem sig (find_twobyte_idx sig) ptr).testBit i = true)
    (h : body_candidate (dispatch_CSig sig) (dispatch_SigExt sig) mem sig (find_twobyte_idx sig)
      end_adj ptr i = some r) :
    (end_adj < ptr + i ∧ r = none) ∨
      (ptr + i ≤ end_adj ∧ r = some (ptr + i - find_twobyte_idx sig) ∧
        matchAt mem sig (ptr + i - find_twobyte_idx sig) = true) := by
  unfold body_candidate at h
  simp only [] at h
  by_cases hgt : ptr + i > end_adj
  · rw [if_pos hgt] at h
    exact Or.inl ⟨hgt, (Option.some.inj h).symm⟩
  · rw [if_neg hgt] at h
    right
    have hh : head_candidate (dispatch_CSig sig) (dispatch_SigExt sig) mem sig
        (find_twobyte_idx sig) ptr i = some r := by
      unfold head_candidate
      simp only []
      exact h
    exact ⟨by omega, head_candidate_some mem sig ptr i r hwf hlen hbit hh⟩

/-- A set anchor lane whose candidate start lies before the first match falls through,
in the head pass and in the aligned body. -/
theorem candidate_before_first (mem : Memory) (sig : signature) (begin_ p end_adj ptr i : Nat)
    (hwf : sig_wf sig)
    (hlen : sig.length = 1 ∨ 3 ≤ sig.length ∨ (sig.length = 2 ∧ (sig_at sig 1).mask = 0))
    (hfirst : ∀ q, q < p → matchAt mem sig (begin_ + q) = false)
    (hlo : begin_ + find_twobyte_idx sig ≤ ptr + i)
    (hhi : ptr + i < begin_ + p + find_twobyte_idx sig)
    (hbit : (anchor_mask (dispatch_C0 sig (find_twobyte_idx sig))
      (dispatch_C1 sig (find_twobyte_idx sig)) mem sig (find_twobyte_idx sig) ptr).testBit i = true) :
    head_candidate (dispatch_CSig sig) (dispatch_SigExt sig) mem sig (find_twobyte_idx sig)
        ptr i = none ∧
      (ptr + i ≤ end_adj →
        body_candidate (dispatch_CSig sig) (dispatch_SigExt sig) mem sig (find_twobyte_idx sig)
          end_adj ptr i = none) := by
  have hno : matchAt mem sig (ptr + i - find_twobyte_idx sig) = false := by
    have e : ptr + i - find_twobyte_idx sig =
        begin_ + (ptr + i - find_twobyte_idx sig - begin_) := by omega
    rw [e]
    exact hfirst _ (by omega)
  constructor
  · cases hh : head_candidate (dispatch_CSig sig) (dispatch_SigExt sig) mem sig
        (find_twobyte_idx sig) ptr i with
    | none => rfl
    | some r =>
      have := (head_candidate_some mem sig ptr i r hwf hlen hbit hh).2
      rw [hno] at this
      exact Bool.noConfusion this
  · intro hle
    cases hh : body_candidate (dispatch_CSig sig) (dispatch_SigExt sig) mem sig
        (find_twobyte_idx sig) end_adj ptr i with
    | none => rfl
    | some r =>
      rcases body_candidate_some mem sig end_adj ptr i r hwf hlen hbit hh with ⟨h1, _⟩ | ⟨_, _, h3⟩
      · omega
      · rw [hno] at h3
        exact Bool.noConfusion h3

/-- A window of the aligned body that ends before the anchor of the first match falls
through to the next window. -/
theorem body_window_before (CExt : cmp_type_extop) (mem : Memory) (sig : signature)
    (begin_ p end_adj maxidx W : Nat) (hwf : sig_wf sig)
    (hlen : sig.length = 1 ∨ 3 ≤ sig.length ∨ (sig.length = 2 ∧ (sig_at sig 1).mask = 0))
    (hfirst : ∀ q, q < p → matchAt mem sig (begin_ + q) = false)
    (hlo : begin_ + find_twobyte_idx sig ≤ W)
    (hhi : W + 32 ≤ begin_ + p + find_twobyte_idx sig)
    (hend : begin_ + p + find_twobyte_idx sig ≤ end_adj) :
    body_window (dispatch_C0 sig (find_twobyte_idx sig)) (dispatch_C1 sig (find_twobyte_idx sig))
      (dispatch_CSig sig) (dispatch_SigExt sig) CExt mem sig (find_twobyte_idx sig) maxidx
      end_adj W = none := by
  unfold body_window
  split
  · rfl
  · apply mask_loop_none (anchor_mask_lt _ _ _ _ _ _)
    intro i hi hbit
    exact (candidate_before_first mem sig begin_ p end_adj W i hwf hlen hfirst (by omega)
      (by omega) hbit).2 (by omega)

/-- The window of the aligned body that holds the anchor of the first match returns
the match, unless the quick-reject test skips it. -/
theorem body_window_at (CExt : cmp_type_extop) (mem : Memory) (sig : signature)
    (begin_ p end_adj maxidx w : Nat) (hwf : sig_wf sig) (hnorm : sig_norm sig)
    (hlen : sig.length = 1 ∨ 3 ≤ sig.length ∨ (sig.length = 2 ∧ (sig_at sig 1).mask = 0))
    (hm : matchAt mem sig (begin_ + p) = true)
    (hfirst : ∀ q, q < p → matchAt mem sig (begin_ + q) = false)
    (hlo : begin_ + find_twobyte_idx sig ≤ w)
    (hw1 : w ≤ begin_ + p + find_twobyte_idx sig)
    (hw2 : begin_ + p + find_twobyte_idx sig < w + 32)
    (hend : begin_ + p + find_twobyte_idx sig ≤ end_adj)
    (hq : quick_reject mem sig maxidx w = false) :
    body_window (dispatch_C0 sig (find_twobyte_idx sig)) (dispatch_C1 sig (find_twobyte_idx sig))
      (dispatch_CSig sig) (dispatch_SigExt sig) CExt mem sig (find_twobyte_idx sig) maxidx
      end_adj w = some (some (begin_ + p)) := by
  have hne : sig ≠ [] := by
    intro h; rw [h] at hlen; simp at hlen
  have hidx := find_twobyte_idx_lt sig hne
  have hshort : dispatch_CSig sig = cmp_type.none → find_twobyte_idx sig = 0 :=
    fun hc => find_twobyte_idx_short sig ((dispatch_CSig_none_iff sig).1 hc)
  unfold body_window
  rw [if_neg (by simp [hq])]
  have hy : w + (begin_ + p + find_twobyte_idx sig - w) = begin_ + p + find_twobyte_idx sig := by
    omega
  apply mask_loop_some (anchor_mask_lt _ _ _ _ _ _)
    (by omega : begin_ + p + find_twobyte_idx sig - w < 32)
  · exact anchor_bit_of_match mem sig _ w _ (begin_ + p) hwf hnorm hidx (by omega) hy hm
  · exact body_candidate_of_match mem sig _ end_adj w _ (begin_ + p) hshort hy (by omega) hm
  · intro j hj hbit
    exact (candidate_before_first mem sig begin_ p end_adj w j hwf hlen hfirst (by omega)
      (by omega) hbit).2 (by omega)

/-- The head pass returns the first match when its anchor lies in a kept lane of the head
window. -/
theorem head_pass_found (mem : Memory) (sig : signature) (begin_ p : Nat)
    (hwf : sig_wf sig) (hnorm : sig_norm sig)
    (hlen : sig.length = 1 ∨ 3 ≤ sig.length ∨ (sig.length = 2 ∧ (sig_at sig 1).mask = 0))
    (hm : matchAt mem sig (begin_ + p) = true)
    (hfirst : ∀ q, q < p → matchAt mem sig (begin_ + q) = false)
    (hp : p < 32) (hkeep : (begin_ + find_twobyte_idx sig) / 32 % 8 ≠ 0 ∨ p = 0) :
    head_pass (dispatch_C0 sig (find_twobyte_idx sig)) (dispatch_C1 sig (find_twobyte_idx sig))
      (dispatch_CSig sig) (dispatch_SigExt sig) mem sig (find_twobyte_idx sig)
      (begin_ + find_twobyte_idx sig) = some (some (begin_ + p)) := by
  have hne : sig ≠ [] := by
    intro h; rw [h] at hlen; simp at hlen
  have hidx := find_twobyte_idx_lt sig hne
  have hshort : dispatch_CSig sig = cmp_type.none → find_twobyte_idx sig = 0 :=
    fun hc => find_twobyte_idx_short sig ((dispatch_CSig_none_iff sig).1 hc)
  unfold head_pass
  have hy : begin_ + find_twobyte_idx sig + p = begin_ + p + find_twobyte_idx sig := by omega
  apply mask_loop_some (head_mask_lt _ _ _ _ _ _) hp
  · rw [testBit_head_mask,
      anchor_bit_of_match mem sig _ _ _ (begin_ + p) hwf hnorm hidx hp hy hm]
    rcases hkeep with h | h
    · simp [h]
    · simp [h]
  · exact head_candidate_of_match mem sig _ _ _ (begin_ + p) hshort hy hm
  · intro j hj hbit
    rw [testBit_head_mask, Bool.and_eq_true] at hbit
    exact (candidate_before_first mem sig begin_ p 0 _ j hwf hlen hfirst (by omega)
      (by omega) hbit.1).1

/-- Whatever the head pass returns is the first match. -/
theorem head_pass_first (mem : Memory) (sig : signature) (begin_ p : Nat) (r : Option Nat)
    (hwf : sig_wf sig) (hnorm : sig_norm sig)
    (hlen : sig.length = 1 ∨ 3 ≤ sig.length ∨ (sig.length = 2 ∧ (sig_at sig 1).mask = 0))
    (hm : matchAt mem sig (begin_ + p) = true)
    (hfirst : ∀ q, q < p → matchAt mem sig (begin_ + q) = false)
    (h : head_pass (dispatch_C0 sig (find_twobyte_idx sig)) (dispatch_C1 sig (find_twobyte_idx sig))
      (dispatch_CSig sig) (dispatch_SigExt sig) mem sig (find_twobyte_idx sig)
      (begin_ + find_twobyte_idx sig) = some r) :
    r = some (begin_ + p) := by
  unfold head_pass at h
  obtain ⟨i, hi, hbit, hc, hprev⟩ := mask_loop_cases (head_mask_lt _ _ _ _ _ _) h
  rw [testBit_head_mask, Bool.and_eq_true] at hbit
  obtain ⟨hr, hmi⟩ := head_candidate_some mem sig _ i r hwf hlen hbit.1 hc
  have e : begin_ + find_twobyte_idx sig + i - find_twobyte_idx sig = begin_ + i := by omega
  rw [e] at hr hmi
  have hpi : p ≤ i := by
    by_contra hlt
    have := hfirst i (by omega)
    rw [hmi] at this
    exact Bool.noConfusion this
  by_cases hip : i = p
  · rw [hr, hip]
  · exfalso
    have hkeep : (begin_ + find_twobyte_idx sig) / 32 % 8 ≠ 0 ∨ p = 0 := by
      left
      have := hbit.2
      simp only [Bool.or_eq_true, decide_eq_true_eq] at this
      rcases this with h1 | h1
      · exact h1
      · omega
    have hf := head_pass_found mem sig begin_ p hwf hnorm hlen hm hfirst (by omega) hkeep
    unfold head_pass at hf
    rw [h] at hf
    have : r = some (begin_ + p) := Option.some.inj hf
    rw [hr] at this
    have := Option.some.inj this
    omega

/-! ## The scan returns the first match when its anchor is examined -/

/-- The anchor of a match that leaves the room the limit asks for lies below the limit. -/
theorem anchor_lt_scan_limit (sig : signature) (begin_ end_ p : Nat) (hne : sig ≠ [])
    (hin : begin_ + p + sig.length ≤ end_)
    (hroom : 3 ≤ sig.length → sig.length ≤ 32 → begin_ + p + 32 ≤ end_) :
    begin_ + p + find_twobyte_idx sig <
      scan_limit (dispatch_CSig sig) (dispatch_SigExt sig) end_ sig (find_twobyte_idx sig) := by
  have hidx := find_twobyte_idx_lt sig hne
  unfold scan_limit dispatch_CSig dispatch_SigExt
  by_cases h2 : sig.length > 2
  · by_cases h32 : sig.length > 32
    · simp only [h2, h32, if_true, decide_True, Bool.and_self]
      rw [if_neg (by simp)]
      omega
    · simp only [h2, h32, if_true, decide_True, decide_False, Bool.and_false]
      rw [if_pos (by simp)]
      have := hroom (by omega) (by omega)
      omega
  · simp only [h2, if_false]
    rw [if_neg (by simp)]
    omega

/-- The template, instantiated as the dispatcher does, returns the first match when the
head pass examines its anchor. -/
theorem do_scan_head_found (CExt : cmp_type_extop) (mem : Memory) (sig : signature)
    (begin_ end_ p maxidx : Nat) (hwf : sig_wf sig) (hnorm : sig_norm sig)
    (hlen : sig.length = 1 ∨ 3 ≤ sig.length ∨ (sig.length = 2 ∧ (sig_at sig 1).mask = 0))
    (hm : matchAt mem sig (begin_ + p) = true)
    (hfirst : ∀ q, q < p → matchAt mem sig (begin_ + q) = false)
    (hp : p < 32) (hkeep : (begin_ + find_twobyte_idx sig) / 32 % 8 ≠ 0 ∨ p = 0) :
    do_scan_avx2_x1 (dispatch_C0 sig (find_twobyte_idx sig))
      (dispatch_C1 sig (find_twobyte_idx sig)) (dispatch_CSig sig) (dispatch_SigExt sig) CExt
      mem begin_ end_ sig (find_twobyte_idx sig) maxidx = some (begin_ + p) := by
  unfold do_scan_avx2_x1
  simp only []
  rw [head_pass_found mem sig begin_ p hwf hnorm hlen hm hfirst hp hkeep]

/-- The template, instantiated as the dispatcher does, returns the first match when the
aligned body examines its anchor: the anchor lies at or after the first aligned window,
below the limit, and its window is not skipped by the quick-reject test. -/
theorem do_scan_body_found (CExt : cmp_type_extop) (mem : Memory) (sig : signature)
    (begin_ end_ p maxidx : Nat) (hwf : sig_wf sig) (hnorm : sig_norm sig)
    (hlen : sig.length = 1 ∨ 3 ≤ sig.length ∨ (sig.length = 2 ∧ (sig_at sig 1).mask = 0))
    (hm : matchAt mem sig (begin_ + p) = true)
    (hfirst : ∀ q, q < p → matchAt mem sig (begin_ + q) = false)
    (hin : begin_ + p + sig.length ≤ end_)
    (hroom : 3 ≤ sig.length → sig.length ≤ 32 → begin_ + p + 32 ≤ end_)
    (hA : ((begin_ + find_twobyte_idx sig) ||| 31) + 1 ≤ begin_ + p + find_twobyte_idx sig)
    (hq : quick_reject mem sig maxidx ((begin_ + p + find_twobyte_idx sig) / 32 * 32) = false) :
    do_scan_avx2_x1 (dispatch_C0 sig (find_twobyte_idx sig))
      (dispatch_C1 sig (find_twobyte_idx sig)) (dispatch_CSig sig) (dispatch_SigExt sig) CExt
      mem begin_ end_ sig (find_twobyte_idx sig) maxidx = some (begin_ + p) := by
  have hne : sig ≠ [] := by
    intro h; rw [h] at hlen; simp at hlen
  have hlim := anchor_lt_scan_limit sig begin_ end_ p hne hin hroom
  unfold do_scan_avx2_x1
  simp only []
  cases hh : head_pass (dispatch_C0 sig (find_twobyte_idx sig))
      (dispatch_C1 sig (find_twobyte_idx sig)) (dispatch_CSig sig) (dispatch_SigExt sig) mem sig
      (find_twobyte_idx sig) (begin_ + find_twobyte_idx sig) with
  | some r =>
    simp only []
    exact head_pass_first mem sig begin_ p r hwf hnorm hlen hm hfirst hh
  | none =>
    simp only []
    rw [lor_31] at hA ⊢
    generalize hx : begin_ + p + find_twobyte_idx sig = x at hA hq hlim
    generalize hL : scan_limit (dispatch_CSig sig) (dispatch_SigExt sig) end_ sig
      (find_twobyte_idx sig) = L at hlim
    generalize hAA : (begin_ + find_twobyte_idx sig) / 32 * 32 + 31 + 1 = A at hA
    have hk : A + 32 * ((x / 32 * 32 - A) / 32) = x / 32 * 32 := by omega
    have hbl := body_loop_found (dispatch_C0 sig (find_twobyte_idx sig))
      (dispatch_C1 sig (find_twobyte_idx sig)) (dispatch_CSig sig) (dispatch_SigExt sig) CExt
      mem sig (find_twobyte_idx sig) maxidx L (some (begin_ + p))
      ((x / 32 * 32 - A) / 32) (L - A) A (by omega) (by omega)
      (by
        intro j hj
        apply body_window_before CExt mem sig begin_ p L maxidx _ hwf hlen hfirst
        · omega
        · omega
        · omega)
      (by
        rw [hk]
        apply body_window_at CExt mem sig begin_ p L maxidx _ hwf hnorm hlen hm hfirst
        · omega
        · omega
        · omega
        · omega
        · exact hq)
    rw [hbl]

/-- The span test of the dispatcher fails, and the buffer is not empty, when the buffer
leaves 64 bytes after the anchor index. -/
theorem scan_impl_avx2_x1_vector (mem : Memory) (begin_ end_ : Nat) (sig : signature)
    (hspan : begin_ + find_twobyte_idx sig + 64 ≤ end_) (h64 : end_ < 2 ^ 64) :
    scan_impl_avx2_x1 mem begin_ end_ sig =
      do_scan_avx2_x1 (dispatch_C0 sig (find_twobyte_idx sig))
        (dispatch_C1 sig (find_twobyte_idx sig)) (dispatch_CSig sig) (dispatch_SigExt sig)
        cmp_type_extop.instrgt mem begin_ end_ sig (find_twobyte_idx sig)
        (find_maxbyte_idx sig) := by
  unfold scan_impl_avx2_x1
  simp only []
  have h1 : ¬ ((end_ : Int) - (begin_ : Int) - (find_twobyte_idx sig : Int)) %
      18446744073709551616 < 64 := by
    norm_num at h64
    omega
  rw [if_neg h1, if_pos (by omega)]

/-! ## Whatever the scan returns is a match -/

theorem head_pass_sound (mem : Memory) (sig : signature) (ptr : Nat) (r : Option Nat)
    (hwf : sig_wf sig)
    (hlen : sig.length = 1 ∨ 3 ≤ sig.length ∨ (sig.length = 2 ∧ (sig_at sig 1).mask = 0))
    (h : head_pass (dispatch_C0 sig (find_twobyte_idx sig)) (dispatch_C1 sig (find_twobyte_idx sig))
      (dispatch_CSig sig) (dispatch_SigExt sig) mem sig (find_twobyte_idx sig) ptr = some r) :
    ∃ i, i < 32 ∧ r = some (ptr + i - find_twobyte_idx sig) ∧
      matchAt mem sig (ptr + i - find_twobyte_idx sig) = true := by
  unfold head_pass at h
  obtain ⟨i, hi, hbit, hc, _⟩ := mask_loop_cases (head_mask_lt _ _ _ _ _ _) h
  rw [testBit_head_mask, Bool.and_eq_true] at hbit
  exact ⟨i, hi, head_candidate_some mem sig ptr i r hwf hlen hbit.1 hc⟩

theorem body_window_sound (CExt : cmp_type_extop) (mem : Memory) (sig : signature)
    (maxidx end_adj ptr : Nat) (r : Option Nat) (hwf : sig_wf sig)
    (hlen : sig.length = 1 ∨ 3 ≤ sig.length ∨ (sig.length = 2 ∧ (sig_at sig 1).mask = 0))
    (h : body_window (dispatch_C0 sig (find_twobyte_idx sig))
      (dispatch_C1 sig (find_twobyte_idx sig)) (dispatch_CSig sig) (dispatch_SigExt sig) CExt
      mem sig (find_twobyte_idx sig) maxidx end_adj ptr = some r) :
    r = none ∨ ∃ i, i < 32 ∧ ptr + i ≤ end_adj ∧ r = some (ptr + i - find_twobyte_idx sig) ∧
      matchAt mem sig (ptr + i - find_twobyte_idx sig) = true := by
  unfold body_window at h
  split at h
  · exact Option.noConfusion h
  · obtain ⟨i, hi, hbit, hc, _⟩ := mask_loop_cases (anchor_mask_lt _ _ _ _ _ _) h
    rcases body_candidate_some mem sig end_adj ptr i r hwf hlen hbit hc with ⟨_, h2⟩ | ⟨h1, h2, h3⟩
    · exact Or.inl h2
    · exact Or.inr ⟨i, hi, h1, h2, h3⟩

theorem std_search_found (mem : Memory) (first last : Nat) (sig : signature)
    (h : std_search mem first last sig ≠ last) :
    matchAt mem sig (std_search mem first last sig) = true ∧
      first ≤ std_search mem first last sig ∧
      std_search mem first last sig + sig.length ≤ last := by
  unfold std_search at h ⊢
  cases hf : (List.range (last + 1 - first - sig.length)).find?
      (fun k => std_equal sig mem (first + k)) with
  | none => rw [hf] at h; exact absurd rfl h
  | some k =>
    simp only []
    rw [List.find?_range_eq_some] at hf
    obtain ⟨h1, h2, _⟩ := hf
    rw [List.mem_range] at h2
    exact ⟨h1, by omega, by omega⟩

theorem tail_pass_sound (CSig : cmp_type) (SigExt : Bool) (mem : Memory) (sig : signature)
    (idx end_adj m : Nat) (h : tail_pass CSig SigExt mem sig idx end_adj = some m) :
    matchAt mem sig m = true ∧ end_adj + idx ≤ m ∧ m + sig.length ≤ end_adj + idx + 31 := by
  unfold tail_pass at h
  split at h
  · simp only [] at h
    split at h
    · rename_i hne
      have := std_search_found mem _ _ sig hne
      have e := Option.some.inj h
      rw [e] at this
      exact this
    · exact Option.noConfusion h
  · exact Option.noConfusion h

/-- Every address the template returns, instantiated as the dispatcher does, is an
address at which the signature matches; it comes from a lane of the head window, from an
anchor position of the aligned body at or below the limit, or from the tail search. -/
theorem do_scan_result (CExt : cmp_type_extop) (mem : Memory) (sig : signature)
    (begin_ end_ maxidx m : Nat) (hwf : sig_wf sig)
    (hlen : sig.length = 1 ∨ 3 ≤ sig.length ∨ (sig.length = 2 ∧ (sig_at sig 1).mask = 0))
    (h : do_scan_avx2_x1 (dispatch_C0 sig (find_twobyte_idx sig))
      (dispatch_C1 sig (find_twobyte_idx sig)) (dispatch_CSig sig) (dispatch_SigExt sig) CExt
      mem begin_ end_ sig (find_twobyte_idx sig) maxidx = some m) :
    matchAt mem sig m = true ∧
      ((∃ i, i < 32 ∧ m = begin_ + i) ∨
       (∃ y, ((begin_ + find_twobyte_idx sig) ||| 31) + 1 ≤ y ∧
          y ≤ scan_limit (dispatch_CSig sig) (dispatch_SigExt sig) end_ sig (find_twobyte_idx sig) ∧
          m = y - find_twobyte_idx sig) ∨
       (scan_limit (dispatch_CSig sig) (dispatch_SigExt sig) end_ sig (find_twobyte_idx sig)
            + find_twobyte_idx sig ≤ m ∧
          m + sig.length ≤
            scan_limit (dispatch_CSig sig) (dispatch_SigExt sig) end_ sig (find_twobyte_idx sig)
              + find_twobyte_idx sig + 31)) := by
  unfold do_scan_avx2_x1 at h
  simp only [] at h
  cases hh : head_pass (dispatch_C0 sig (find_twobyte_idx sig))
      (dispatch_C1 sig (find_twobyte_idx sig)) (dispatch_CSig sig) (dispatch_SigExt sig) mem sig
      (find_twobyte_idx sig) (begin_ + find_twobyte_idx sig) with
  | some r =>
    rw [hh] at h
    simp only [] at h
    obtain ⟨i, hi, h2, h3⟩ := head_pass_sound mem sig _ r hwf hlen hh
    rw [h] at h2
    have e := Option.some.inj h2
    rw [e]
    exact ⟨h3, Or.inl ⟨i, hi, by omega⟩⟩
  | none =>
    rw [hh] at h
    simp only [] at h
    cases hb : body_loop (dispatch_C0 sig (find_twobyte_idx sig))
        (dispatch_C1 sig (find_twobyte_idx sig)) (dispatch_CSig sig) (dispatch_SigExt sig) CExt
        mem sig (find_twobyte_idx sig) maxidx
        (scan_limit (dispatch_CSig sig) (dispatch_SigExt sig) end_ sig (find_twobyte_idx sig))
        (scan_limit (dispatch_CSig sig) (dispatch_SigExt sig) end_ sig (find_twobyte_idx sig) -
          (((begin_ + find_twobyte_idx sig) ||| 31) + 1))
        (((begin_ + find_twobyte_idx sig) ||| 31) + 1) with
    | some r =>
      rw [hb] at h
      simp only [] at h
      obtain ⟨k, _, hk, _⟩ := body_loop_cases _ _ _ _ _ _ _ _ _ _ _ _ _ hb
      rcases body_window_sound CExt mem sig maxidx _ _ r hwf hlen hk with h1 | ⟨i, _, hle, h2, h3⟩
      · rw [h1] at h; exact Option.noConfusion h
      · rw [h] at h2
        have e := Option.some.inj h2
        rw [e]
        exact ⟨h3, Or.inr (Or.inl ⟨_, by omega, hle, rfl⟩)⟩
    | none =>
      rw [hb] at h
      simp only [] at h
      have := tail_pass_sound _ _ mem sig _ _ m h
      exact ⟨this.1, Or.inr (Or.inr this.2)⟩

theorem do_scan_sound (CExt : cmp_type_extop) (mem : Memory) (sig : signature)
    (begin_ end_ maxidx m : Nat) (hwf : sig_wf sig)
    (hlen : sig.length = 1 ∨ 3 ≤ sig.length ∨ (sig.length = 2 ∧ (sig_at sig 1).mask = 0))
    (h : do_scan_avx2_x1 (dispatch_C0 sig (find_twobyte_idx sig))
      (dispatch_C1 sig (find_twobyte_idx sig)) (dispatch_CSig sig) (dispatch_SigExt sig) CExt
      mem begin_ end_ sig (find_twobyte_idx sig) maxidx = some m) :
    matchAt mem sig m = true :=
  (do_scan_result CExt mem sig begin_ end_ maxidx m hwf hlen h).1

/-- For a signature of 3 to 31 cells anchored at its first cell, every address the
template returns lies in the buffer with the whole signature. -/
theorem do_scan_in_range (CExt : cmp_type_extop) (mem : Memory) (sig : signature)
    (begin_ end_ maxidx m : Nat) (hwf : sig_wf sig)
    (h3 : 3 ≤ sig.length) (h31 : sig.length ≤ 31) (hidx : find_twobyte_idx sig = 0)
    (hspan : begin_ + 64 ≤ end_)
    (h : do_scan_avx2_x1 (dispatch_C0 sig (find_twobyte_idx sig))
      (dispatch_C1 sig (find_twobyte_idx sig)) (dispatch_CSig sig) (dispatch_SigExt sig) CExt
      mem begin_ end_ sig (find_twobyte_idx sig) maxidx = some m) :
    matchAt mem sig m = true ∧ begin_ ≤ m ∧ m + sig.length ≤ end_ := by
  obtain ⟨hm, hloc⟩ := do_scan_result CExt mem sig begin_ end_ maxidx m hwf (Or.inr (Or.inl h3)) h
  refine ⟨hm, ?_⟩
  have hlim : scan_limit (dispatch_CSig sig) (dispatch_SigExt sig) end_ sig
      (find_twobyte_idx sig) = end_ - 31 := by
    unfold scan_limit dispatch_CSig dispatch_SigExt
    have h2 : sig.length > 2 := by omega
    have h32 : ¬ sig.length > 32 := by omega
    simp only [h2, h32, if_true, decide_True, decide_False, Bool.and_false]
    rw [if_pos (by simp), hidx]
  rw [hlim, hidx, lor_31] at hloc
  rcases hloc with ⟨i, hi, he⟩ | ⟨y, hy1, hy2, he⟩ | ⟨ht1, ht2⟩
  · omega
  · omega
  · omega

/-- The dispatcher returns the first match of the buffer when the scan examines its
anchor. -/
theorem scan_impl_first_match (mem : Memory) (begin_ end_ : Nat) (sig : signature) (p : Nat)
    (hwf : sig_wf sig) (hnorm : sig_norm sig)
    (hlen : sig.length = 1 ∨ 3 ≤ sig.length ∨ (sig.length = 2 ∧ (sig_at sig 1).mask = 0))
    (hspan : begin_ + find_twobyte_idx sig + 64 ≤ end_) (h64 : end_ < 2 ^ 64)
    (hin : begin_ + p + sig.length ≤ end_)
    (hm : matchAt mem sig (begin_ + p) = true)
    (hfirst : ∀ q, q < p → matchAt mem sig (begin_ + q) = false)
    (hex : examined mem begin_ end_ sig p) :
    scan_impl_avx2_x1 mem begin_ end_ sig = some (begin_ + p) := by
  rw [scan_impl_avx2_x1_vector mem begin_ end_ sig hspan h64]
  rcases hex with h0 | ⟨h1, h2⟩ | ⟨h1, h2, h3⟩
  · exact do_scan_head_found _ mem sig begin_ end_ p _ hwf hnorm hlen hm hfirst (by omega)
      (Or.inr h0)
  · exact do_scan_head_found _ mem sig begin_ end_ p _ hwf hnorm hlen hm hfirst h1 (Or.inl h2)
  · exact do_scan_body_found _ mem sig begin_ end_ p _ hwf hnorm hlen hm hfirst hin h3 h1 h2

/-- Every address the dispatcher returns on the vector path is an address at which the
signature matches. -/
theorem scan_impl_sound (mem : Memory) (begin_ end_ : Nat) (sig : signature) (m : Nat)
    (hwf : sig_wf sig)
    (hlen : sig.length = 1 ∨ 3 ≤ sig.length ∨ (sig.length = 2 ∧ (sig_at sig 1).mask = 0))
    (hspan : begin_ + find_twobyte_idx sig + 64 ≤ end_) (h64 : end_ < 2 ^ 64)
    (h : scan_impl_avx2_x1 mem begin_ end_ sig = some m) : matchAt mem sig m = true := by
  rw [scan_impl_avx2_x1_vector mem begin_ end_ sig hspan h64] at h
  exact do_scan_sound _ mem sig begin_ end_ _ m hwf hlen h

/-- The scalar reference returns the first offset of the buffer at which the signature
matches. -/
theorem scan_impl_normal_x1_eq_some (mem : Memory) (begin_ end_ : Nat) (sig : signature)
    (p : Nat) :
    scan_impl_normal_x1 mem begin_ end_ sig = some (begin_ + p) ↔
      (begin_ + p + sig.length ≤ end_ ∧ matchAt mem sig (begin_ + p) = true ∧
        ∀ q, q < p → matchAt mem sig (begin_ + q) = false) := by
  unfold scan_impl_normal_x1
  rw [Option.map_eq_some']
  constructor
  · intro ⟨k, hk, hkp⟩
    have : k = p := by omega
    subst this
    rw [List.find?_range_eq_some] at hk
    obtain ⟨h1, h2, h3⟩ := hk
    rw [List.mem_range] at h2
    refine ⟨by omega, h1, fun q hq => ?_⟩
    have := h3 q hq
    simpa using this
  · intro ⟨h1, h2, h3⟩
    refine ⟨p, ?_, rfl⟩
    rw [List.find?_range_eq_some]
    refine ⟨h2, ?_, fun q hq => ?_⟩
    · rw [List.mem_range]; omega
    · simp [h3 q hq]

theorem scan_impl_normal_x1_eq_none (mem : Memory) (begin_ end_ : Nat) (sig : signature) :
    scan_impl_normal_x1 mem begin_ end_ sig = none ↔
      ∀ q, begin_ + q + sig.length ≤ end_ → matchAt mem sig (begin_ + q) = false := by
  unfold scan_impl_normal_x1
  rw [Option.map_eq_none', List.find?_range_eq_none]
  constructor
  · intro h q hq
    have := h q (by omega)
    simpa using this
  · intro h q hq
    simp [h q (by omega)]

/-! ## The claims -/

/-- C8. Anchor selection: for every non-empty signature, with the score of a position the
set mask bits of its cell plus those of the next cell (zero when out of range),
`find_twobyte_idx` returns 0 when cells 0 and 1 both have mask 0xFF; otherwise it returns
an index whose score is at least the score of every position with a non-zero mask, and no
earlier candidate (position 0, or a position with a non-zero mask) has a score at least
as large. -/
theorem find_twobyte_idx_spec (sig : signature) (hne : sig ≠ []) :
    ((sig_at sig 0).mask = 0xFF ∧ 1 < sig.length ∧ (sig_at sig 1).mask = 0xFF →
      find_twobyte_idx sig = 0) ∧
    (¬ ((sig_at sig 0).mask = 0xFF ∧ 1 < sig.length ∧ (sig_at sig 1).mask = 0xFF) →
      (∀ i, i < sig.length → (sig_at sig i).mask ≠ 0 →
        anchor_score sig i ≤ anchor_score sig (find_twobyte_idx sig)) ∧
      (∀ j, j < find_twobyte_idx sig → (j = 0 ∨ (sig_at sig j).mask ≠ 0) →
        ¬ anchor_score sig (find_twobyte_idx sig) ≤ anchor_score sig j)) := by
  have hlen : 0 < sig.length := List.length_pos.2 hne
  constructor
  · intro h
    unfold find_twobyte_idx
    rw [if_pos h]
  · intro h
    have hinv := find_twobyte_idx_loop_inv sig (sig.length - 1) (by omega)
    simp only [] at hinv
    have e : find_twobyte_idx sig =
        (List.range' 1 (sig.length - 1)).foldl (find_twobyte_idx_step sig) 0 := by
      unfold find_twobyte_idx
      rw [if_neg h]
    rw [e]
    obtain ⟨_, _, hmax, hmin⟩ := hinv
    refine ⟨fun i hi hmask => hmax i (by omega) (Or.inr hmask), fun j hj hc => ?_⟩
    have := hmin j hj hc
    omega

/-- C8, at the signature `0F FF FF`: cell 0 is partial, and position 1 is returned. -/
theorem find_twobyte_idx_spec_witness :
    sig_nibble ≠ [] ∧ find_twobyte_idx sig_nibble = 1 ∧
    (¬ ((sig_at sig_nibble 0).mask = 0xFF ∧ 1 < sig_nibble.length ∧
        (sig_at sig_nibble 1).mask = 0xFF) →
      (∀ i, i < sig_nibble.length → (sig_at sig_nibble i).mask ≠ 0 →
        anchor_score sig_nibble i ≤ anchor_score sig_nibble (find_twobyte_idx sig_nibble)) ∧
      (∀ j, j < find_twobyte_idx sig_nibble → (j = 0 ∨ (sig_at sig_nibble j).mask ≠ 0) →
        ¬ anchor_score sig_nibble (find_twobyte_idx sig_nibble) ≤ anchor_score sig_nibble j)) :=
  ⟨by decide, by decide, (find_twobyte_idx_spec sig_nibble (by decide)).2⟩

/-- C9. Max-byte selection: for every non-empty signature, `find_maxbyte_idx` returns an
index `m` below the length such that the raw byte of cell `m` is at least the raw byte of
every cell and strictly greater than the raw byte of every cell before `m` (the first
occurrence of the greatest raw byte, masks ignored). -/
theorem find_maxbyte_idx_spec (sig : signature) (hne : sig ≠ []) :
    find_maxbyte_idx sig < sig.length ∧
    (∀ i, i < sig.length → (sig_at sig i).byte ≤ (sig_at sig (find_maxbyte_idx sig)).byte) ∧
    (∀ j, j < find_maxbyte_idx sig →
      (sig_at sig j).byte < (sig_at sig (find_maxbyte_idx sig)).byte) := by
  have hlen : 0 < sig.length := List.length_pos.2 hne
  have hinv := find_maxbyte_idx_loop_inv sig (sig.length - 1)
  simp only [] at hinv
  unfold find_maxbyte_idx
  obtain ⟨h1, h2, h3, h4⟩ := hinv
  rw [← h2]
  exact ⟨by omega, fun i hi => h3 i (by omega), h4⟩

/-- C9, at the signature `0F FF FF` with the bytes `02 34 56`: the last cell is returned. -/
theorem find_maxbyte_idx_spec_witness :
    sig_nibble ≠ [] ∧ find_maxbyte_idx sig_nibble = 2 ∧
    find_maxbyte_idx sig_nibble < sig_nibble.length ∧
    (∀ i, i < sig_nibble.length →
      (sig_at sig_nibble i).byte ≤ (sig_at sig_nibble (find_maxbyte_idx sig_nibble)).byte) ∧
    (∀ j, j < find_maxbyte_idx sig_nibble →
      (sig_at sig_nibble j).byte < (sig_at sig_nibble (find_maxbyte_idx sig_nibble)).byte) :=
  ⟨by decide, by decide, find_maxbyte_idx_spec sig_nibble (by decide)⟩

/-- C2 (defect of the code). The signature `AB` and the 70-byte buffer `[4096, 4166)` of
bytes `80`, the byte after the buffer, at the address 4166, being `AB`: the aligned body
accepts the anchor position equal to the limit (`match > end` is false there), so the
scan returns the address `end`, at which the signature needs one byte more than the
buffer holds. -/
theorem result_past_end :
    4166 - 4096 - find_twobyte_idx sig_AB ≥ 64 ∧
    scan_impl_avx2_x1 mem_80_AB_end 4096 4166 sig_AB = some 4166 ∧
    ¬ (4166 + sig_AB.length ≤ 4166) :=
  ⟨by decide, by decide, by decide⟩

/-- C4 (defect of the code). The signature `10 10` of two exact cells and the 128-byte
buffer at 4096 of zero bytes holding `10` at the offset 63, the last lane of the aligned
window at 4128: the lane mask of the second anchor byte keeps lane 31 unconditionally and
no further check follows, so the scan returns the offset 63 although the byte at the
offset 64 is `00`, not `10`. -/
theorem short_signature_invalid_match :
    sig_10_10.length = 2 ∧
    scan_impl_avx2_x1 mem_lane31 4096 4224 sig_10_10 = some 4159 ∧
    cell_eq (sig_at sig_10_10 1) (rd mem_lane31 (4159 + 1)) = false ∧
    matchAt mem_lane31 sig_10_10 4159 = false :=
  ⟨by decide, by decide, by decide, by decide⟩

/-- C10 (defect of the code). The signature `?? ?? AA BB` has the anchor index 2; on the
one-byte buffer `[4096, 4097)` the span `end - begin - anchor` is `-1`, which the unsigned
comparison of the dispatcher reads as `2^64 - 1`, so the vector matcher runs. With `AA BB`
in the two bytes after the buffer it returns the address 4096, while the scalar reference
reports not-found. -/
theorem small_buffer_fallback_missed :
    find_twobyte_idx sig_wild2 = 2 ∧
    ((4097 : Int) - 4096 - 2 < 64) ∧
    scan_impl_avx2_x1 mem_AA_BB 4096 4097 sig_wild2 = some 4096 ∧
    scan_impl_normal_x1 mem_AA_BB 4096 4097 sig_wild2 = none :=
  ⟨by decide, by decide, by decide, by decide⟩

/-- C6 (defect of the code). Scenario 1 at every begin address: in a 64-byte buffer of
zero bytes with `AB` at the offset 40, the head window holds no `AB`, and every aligned
window holds a zero byte, which the signed comparison of the quick-reject test finds
greater than `AB` (0 against -85), so every window is skipped and the scan reports
not-found instead of the offset 40. -/
theorem scenario1_not_found (mem : Memory) (begin_ : Nat) (h64 : begin_ + 64 < 2 ^ 64)
    (_hAB : rd mem (begin_ + 40) = 0xAB)
    (hzero : ∀ i, i < 64 → i ≠ 40 → rd mem (begin_ + i) = 0) :
    scan_impl_avx2_x1 mem begin_ (begin_ + 64) sig_AB = none := by
  have hidx : find_twobyte_idx sig_AB = 0 := by decide
  have hmax : find_maxbyte_idx sig_AB = 0 := by decide
  rw [scan_impl_avx2_x1_vector mem begin_ (begin_ + 64) sig_AB (by omega) h64]
  rw [hidx, hmax]
  have hC0 : dispatch_C0 sig_AB 0 = cmp_type.full := by decide
  have hC1 : dispatch_C1 sig_AB 0 = cmp_type.none := by decide
  have hCS : dispatch_CSig sig_AB = cmp_type.none := by decide
  have hSE : dispatch_SigExt sig_AB = false := by decide
  rw [hC0, hC1, hCS, hSE]
  unfold do_scan_avx2_x1
  simp only []
  have hhead : head_pass cmp_type.full cmp_type.none cmp_type.none false mem sig_AB 0
      (begin_ + 0) = none := by
    unfold head_pass
    apply mask_loop_none (head_mask_lt _ _ _ _ _ _)
    intro i hi hbit
    exfalso
    rw [testBit_head_mask, testBit_anchor_mask] at hbit
    simp only [Bool.and_eq_true, decide_eq_true_eq] at hbit
    obtain ⟨⟨⟨_, hl⟩, _⟩, _⟩ := hbit
    unfold lane_hit at hl
    rw [if_neg (by decide)] at hl
    have hl := of_decide_eq_true hl
    have hz := hzero i (by omega) (by omega)
    rw [Nat.add_zero, hz] at hl
    revert hl
    decide
  rw [hhead]
  simp only []
  have hlim : scan_limit cmp_type.none false (begin_ + 64) sig_AB 0 = begin_ + 64 := by
    unfold scan_limit
    rw [if_neg (by simp)]
    rfl
  rw [hlim, lor_31]
  have hbody : body_loop cmp_type.full cmp_type.none cmp_type.none false cmp_type_extop.instrgt
      mem sig_AB 0 0 (begin_ + 64) (begin_ + 64 - ((begin_ + 0) / 32 * 32 + 31 + 1))
      ((begin_ + 0) / 32 * 32 + 31 + 1) = none := by
    apply body_loop_none
    intro j hj
    unfold body_window
    rw [if_pos]
    refine ⟨rfl, ?_⟩
    rw [quick_reject_iff]
    have hgt : toInt8 0 > toInt8 (sig_at sig_AB 0).byte := by decide
    by_cases h40 : (begin_ + 0) / 32 * 32 + 31 + 1 + 32 * j = begin_ + 40
    · refine ⟨1, by omega, ?_⟩
      have e : (begin_ + 0) / 32 * 32 + 31 + 1 + 32 * j + 1 = begin_ + 41 := by omega
      rw [e, hzero 41 (by omega) (by omega)]
      exact hgt
    · refine ⟨0, by omega, ?_⟩
      have e : (begin_ + 0) / 32 * 32 + 31 + 1 + 32 * j + 0 =
          begin_ + ((begin_ + 0) / 32 * 32 + 31 + 1 + 32 * j - begin_) := by omega
      rw [e, hzero _ (by omega) (by omega)]
      exact hgt
  rw [hbody]
  simp only []
  unfold tail_pass
  rw [if_neg (by simp)]

/-- C6 (defect of the code), at the begin address 4096. -/
theorem scenario1_not_found_witness :
    4096 + 64 < 2 ^ 64 ∧ rd mem_scenario1 (4096 + 40) = 0xAB ∧
    (∀ i, i < 64 → i ≠ 40 → rd mem_scenario1 (4096 + i) = 0) ∧
    scan_impl_avx2_x1 mem_scenario1 4096 (4096 + 64) sig_AB = none :=
  ⟨by decide, by decide, by decide,
    scenario1_not_found mem_scenario1 4096 (by decide) (by decide) (by decide)⟩

/-- C7, the claim as stated fails: scenario 2 in the 128-byte buffer at 4096, filled with
bytes `80`. The signature `90 ?? 90` matches at the offset 50 and at no offset below, but
the window of the offset 50 also holds the byte `FF` under the wildcard, greater than the
greatest signature byte `90`, and is skipped: the scan returns the offset 100. -/
theorem scenario2_counterexample :
    rd (mem_scenario2 4096) (4096 + 50) = 0x90 ∧ rd (mem_scenario2 4096) (4096 + 51) = 0xFF ∧
    rd (mem_scenario2 4096) (4096 + 52) = 0x90 ∧ rd (mem_scenario2 4096) (4096 + 100) = 0x90 ∧
    rd (mem_scenario2 4096) (4096 + 101) = 0x00 ∧ rd (mem_scenario2 4096) (4096 + 102) = 0x90 ∧
    (∀ q, q < 50 → matchAt (mem_scenario2 4096) sig_scenario2 (4096 + q) = false) ∧
    scan_impl_avx2_x1 (mem_scenario2 4096) 4096 4224 sig_scenario2 = some (4096 + 100) :=
  ⟨by decide, by decide, by decide, by decide, by decide, by decide, by decide, by decide⟩

/-- C7 (amended). Scenario 2: for the signature `90 ?? 90` and every buffer that holds
`90 FF 90` at the offset 50 and `90 00 90` at the offset 100 and in which the signature
matches at no offset below 50, if the quick-reject test does not skip the aligned
32-byte window that holds the byte at the offset 50 (none of its bytes is greater, as a
signed byte, than `90`), `scan_impl_avx2_x1` returns `begin + 50`. -/
theorem scenario2_found (mem : Memory) (begin_ end_ : Nat)
    (hbuf : begin_ + 103 ≤ end_) (h64 : end_ < 2 ^ 64)
    (h50 : rd mem (begin_ + 50) = 0x90) (h51 : rd mem (begin_ + 51) = 0xFF)
    (h52 : rd mem (begin_ + 52) = 0x90) (_h100 : rd mem (begin_ + 100) = 0x90)
    (_h101 : rd mem (begin_ + 101) = 0x00) (_h102 : rd mem (begin_ + 102) = 0x90)
    (hfirst : ∀ q, q < 50 → matchAt mem sig_scenario2 (begin_ + q) = false)
    (hq : quick_reject mem sig_scenario2 (find_maxbyte_idx sig_scenario2)
      ((begin_ + 50) / 32 * 32) = false) :
    scan_impl_avx2_x1 mem begin_ end_ sig_scenario2 = some (begin_ + 50) := by
  have hidx : find_twobyte_idx sig_scenario2 = 0 := by decide
  have hm : matchAt mem sig_scenario2 (begin_ + 50) = true := by
    rw [matchAt_iff]
    intro i hi
    have hi3 : i < 3 := hi
    have hcases : i = 0 ∨ i = 1 ∨ i = 2 := by omega
    rcases hcases with h | h | h
    · subst h; rw [Nat.add_zero, h50]; decide
    · subst h
      have e : begin_ + 50 + 1 = begin_ + 51 := by omega
      rw [e, h51]; decide
    · subst h
      have e : begin_ + 50 + 2 = begin_ + 52 := by omega
      rw [e, h52]; decide
  apply scan_impl_first_match mem begin_ end_ sig_scenario2 50 (by unfold sig_wf; decide)
    (by unfold sig_norm; decide) (by decide) (by omega)
    h64 (by have : sig_scenario2.length = 3 := rfl; omega) hm hfirst
  right; right
  rw [hidx, lor_31]
  refine ⟨by omega, hq, fun _ _ => by omega⟩

/-- C7 (amended), at the 128-byte buffer at 4109 filled with bytes `80`: the offset 50 is
the last lane of the aligned window at 4128, which the byte `FF` at the offset 51 does
not enter. -/
theorem scenario2_found_witness :
    4109 + 103 ≤ 4237 ∧ 4237 < 2 ^ 64 ∧
    rd (mem_scenario2 4109) (4109 + 50) = 0x90 ∧ rd (mem_scenario2 4109) (4109 + 51) = 0xFF ∧
    rd (mem_scenario2 4109) (4109 + 52) = 0x90 ∧ rd (mem_scenario2 4109) (4109 + 100) = 0x90 ∧
    rd (mem_scenario2 4109) (4109 + 101) = 0x00 ∧ rd (mem_scenario2 4109) (4109 + 102) = 0x90 ∧
    (∀ q, q < 50 → matchAt (mem_scenario2 4109) sig_scenario2 (4109 + q) = false) ∧
    quick_reject (mem_scenario2 4109) sig_scenario2 (find_maxbyte_idx sig_scenario2)
      ((4109 + 50) / 32 * 32) = false ∧
    scan_impl_avx2_x1 (mem_scenario2 4109) 4109 4237 sig_scenario2 = some (4109 + 50) :=
  ⟨by decide, by decide, by decide, by decide, by decide, by decide, by decide, by decide,
    by decide, by decide,
    scenario2_found (mem_scenario2 4109) 4109 4237 (by decide) (by decide) (by decide)
      (by decide) (by decide) (by decide) (by decide) (by decide) (by decide) (by decide)⟩

/-! ## The loads of Matcher A -/

theorem mask_loop_loads_snd (f : Nat → Option (Option Nat))
    (g : Nat → List (load_kind × Nat) × Option (Option Nat)) (hfg : ∀ i, (g i).2 = f i) :
    ∀ (fuel mask : Nat), (mask_loop_loads g fuel mask).2 = mask_loop f fuel mask := by
  intro fuel
  induction fuel with
  | zero => intro mask; rfl
  | succ fuel ih =>
    intro mask
    by_cases h0 : mask = 0
    · simp only [mask_loop_loads, mask_loop, h0, if_true]
    · simp only [mask_loop_loads, mask_loop, h0, if_false]
      rw [hfg]
      cases f (tzcnt_u32 mask) with
      | some r => rfl
      | none => exact ih _

theorem head_candidate_loads_snd (CSig : cmp_type) (SigExt : Bool) (mem : Memory)
    (sig : signature) (idx ptr lane : Nat) :
    (head_candidate_loads CSig SigExt mem sig idx ptr lane).2 =
      head_candidate CSig SigExt mem sig idx ptr lane := by
  unfold head_candidate_loads head_candidate
  simp only []
  by_cases hc : CSig = cmp_type.none
  · rw [if_pos hc, if_pos hc]
  · rw [if_neg hc, if_neg hc]

theorem body_candidate_loads_snd (CSig : cmp_type) (SigExt : Bool) (mem : Memory)
    (sig : signature) (idx end_adj ptr lane : Nat) :
    (body_candidate_loads CSig SigExt mem sig idx end_adj ptr lane).2 =
      body_candidate CSig SigExt mem sig idx end_adj ptr lane := by
  unfold body_candidate_loads body_candidate
  simp only []
  by_cases hgt : ptr + lane > end_adj
  · rw [if_pos hgt, if_pos hgt]
  · rw [if_neg hgt, if_neg hgt]
    by_cases hc : CSig = cmp_type.none
    · rw [if_pos hc, if_pos hc]
    · rw [if_neg hc, if_neg hc]

theorem body_window_loads_snd (C0 C1 CSig : cmp_type) (SigExt : Bool) (CExt : cmp_type_extop)
    (mem : Memory) (sig : signature) (idx maxidx end_adj ptr : Nat) :
    (body_window_loads C0 C1 CSig SigExt CExt mem sig idx maxidx end_adj ptr).2 =
      body_window C0 C1 CSig SigExt CExt mem sig idx maxidx end_adj ptr := by
  unfold body_window_loads body_window
  split
  · rfl
  · exact mask_loop_loads_snd _ _ (body_candidate_loads_snd CSig SigExt mem sig idx end_adj ptr)
      _ _

theorem body_loop_loads_snd (C0 C1 CSig : cmp_type) (SigExt : Bool) (CExt : cmp_type_extop)
    (mem : Memory) (sig : signature) (idx maxidx end_adj : Nat) :
    ∀ (fuel ptr : Nat),
      (body_loop_loads C0 C1 CSig SigExt CExt mem sig idx maxidx end_adj fuel ptr).2 =
        body_loop C0 C1 CSig SigExt CExt mem sig idx maxidx end_adj fuel ptr := by
  intro fuel
  induction fuel with
  | zero => intro ptr; rfl
  | succ fuel ih =>
    intro ptr
    by_cases hlt : ptr < end_adj
    · simp only [body_loop_loads, body_loop, hlt, if_true]
      rw [body_window_loads_snd]
      cases body_window C0 C1 CSig SigExt CExt mem sig idx maxidx end_adj ptr with
      | some r => rfl
      | none => exact ih _
    · simp only [body_loop_loads, body_loop, hlt, if_false]

theorem head_pass_loads_snd (C0 C1 CSig : cmp_type) (SigExt : Bool) (mem : Memory)
    (sig : signature) (idx ptr : Nat) :
    (head_pass_loads C0 C1 CSig SigExt mem sig idx ptr).2 =
      head_pass C0 C1 CSig SigExt mem sig idx ptr := by
  unfold head_pass_loads head_pass
  exact mask_loop_loads_snd _ _ (head_candidate_loads_snd CSig SigExt mem sig idx ptr) _ _

/-- The template with its loads returns what the template returns. -/
theorem do_scan_avx2_x1_loads_snd (C0 C1 CSig : cmp_type) (SigExt : Bool)
    (CExt : cmp_type_extop) (mem : Memory) (begin_ end_ : Nat) (sig : signature)
    (idx maxidx : Nat) :
    (do_scan_avx2_x1_loads C0 C1 CSig SigExt CExt mem begin_ end_ sig idx maxidx).2 =
      do_scan_avx2_x1 C0 C1 CSig SigExt CExt mem begin_ end_ sig idx maxidx := by
  unfold do_scan_avx2_x1_loads do_scan_avx2_x1
  simp only []
  rw [head_pass_loads_snd]
  cases head_pass C0 C1 CSig SigExt mem sig idx (begin_ + idx) with
  | some r => rfl
  | none =>
    simp only []
    rw [body_loop_loads_snd]
    cases body_loop C0 C1 CSig SigExt CExt mem sig idx maxidx
        (scan_limit CSig SigExt end_ sig idx)
        (scan_limit CSig SigExt end_ sig idx - (((begin_ + idx) ||| 31) + 1))
        (((begin_ + idx) ||| 31) + 1) with
    | some r => rfl
    | none => rfl

/-- The loads of a `while (mask)` loop are loads of candidate checks when those of its
body are. -/
theorem mask_loop_loads_kind (g : Nat → List (load_kind × Nat) × Option (Option Nat))
    (hg : ∀ i x, x ∈ (g i).1 → x.1 = load_kind.verify) :
    ∀ (fuel mask : Nat) (x : load_kind × Nat), x ∈ (mask_loop_loads g fuel mask).1 →
      x.1 = load_kind.verify := by
  intro fuel
  induction fuel with
  | zero => intro mask x hx; simp [mask_loop_loads] at hx
  | succ fuel ih =>
    intro mask x hx
    by_cases h0 : mask = 0
    · simp [mask_loop_loads, h0] at hx
    · simp only [mask_loop_loads, h0, if_false] at hx
      cases hr : (g (tzcnt_u32 mask)).2 with
      | some r =>
        rw [hr] at hx
        exact hg _ x hx
      | none =>
        rw [hr] at hx
        simp only [List.mem_append] at hx
        rcases hx with h | h
        · exact hg _ x h
        · exact ih _ x h

theorem head_candidate_loads_kind (CSig : cmp_type) (SigExt : Bool) (mem : Memory)
    (sig : signature) (idx ptr lane : Nat) (x : load_kind × Nat)
    (hx : x ∈ (head_candidate_loads CSig SigExt mem sig idx ptr lane).1) :
    x.1 = load_kind.verify := by
  unfold head_candidate_loads at hx
  simp only [] at hx
  split at hx
  · simp at hx
  · simp only [List.mem_singleton] at hx
    rw [hx]

theorem body_candidate_loads_kind (CSig : cmp_type) (SigExt : Bool) (mem : Memory)
    (sig : signature) (idx end_adj ptr lane : Nat) (x : load_kind × Nat)
    (hx : x ∈ (body_candidate_loads CSig SigExt mem sig idx end_adj ptr lane).1) :
    x.1 = load_kind.verify := by
  unfold body_candidate_loads at hx
  simp only [] at hx
  split at hx
  · simp at hx
  · split at hx
    · simp at hx
    · simp only [List.mem_singleton] at hx
      rw [hx]

/-- The window loads of the aligned-body loop started at `ptr` are at `ptr + 32 * j`,
below the limit. -/
theorem body_loop_loads_window (C0 C1 CSig : cmp_type) (SigExt : Bool) (CExt : cmp_type_extop)
    (mem : Memory) (sig : signature) (idx maxidx end_adj : Nat) :
    ∀ (fuel ptr a : Nat),
      (load_kind.window, a) ∈
        (body_loop_loads C0 C1 CSig SigExt CExt mem sig idx maxidx end_adj fuel ptr).1 →
      ∃ j, a = ptr + 32 * j ∧ a < end_adj := by
  have hwin : ∀ ptr a, (load_kind.window, a) ∈
      (body_window_loads C0 C1 CSig SigExt CExt mem sig idx maxidx end_adj ptr).1 → a = ptr := by
    intro ptr a ha
    unfold body_window_loads at ha
    split at ha
    · simp only [List.mem_singleton, Prod.mk.injEq, true_and] at ha
      exact ha
    · simp only [List.mem_cons, Prod.mk.injEq, true_and] at ha
      rcases ha with h | h
      · exact h
      · have := mask_loop_loads_kind _
          (fun i x hx => body_candidate_loads_kind CSig SigExt mem sig idx end_adj ptr i x hx)
          _ _ _ h
        simp at this
  intro fuel
  induction fuel with
  | zero => intro ptr a ha; simp [body_loop_loads] at ha
  | succ fuel ih =>
    intro ptr a ha
    by_cases hlt : ptr < end_adj
    · simp only [body_loop_loads, hlt, if_true] at ha
      cases hr : (body_window_loads C0 C1 CSig SigExt CExt mem sig idx maxidx end_adj ptr).2 with
      | some r =>
        rw [hr] at ha
        have := hwin ptr a ha
        exact ⟨0, by omega, by omega⟩
      | none =>
        rw [hr] at ha
        simp only [List.mem_append] at ha
        rcases ha with h | h
        · have := hwin ptr a h
          exact ⟨0, by omega, by omega⟩
        · obtain ⟨j, hj1, hj2⟩ := ih (ptr + 32) a h
          exact ⟨j + 1, by omega, hj2⟩
    · simp [body_loop_loads, hlt] at ha

/-- The window loads of the template are at 32-aligned addresses from the first aligned
address above `begin + twobyte_idx` on, below the limit. -/
theorem do_scan_loads_window (C0 C1 CSig : cmp_type) (SigExt : Bool) (CExt : cmp_type_extop)
    (mem : Memory) (begin_ end_ : Nat) (sig : signature) (idx maxidx a : Nat)
    (h : (load_kind.window, a) ∈
      (do_scan_avx2_x1_loads C0 C1 CSig SigExt CExt mem begin_ end_ sig idx maxidx).1) :
    ∃ j, a = ((begin_ + idx) ||| 31) + 1 + 32 * j ∧ a < scan_limit CSig SigExt end_ sig idx := by
  have hhead : ¬ (load_kind.window, a) ∈
      (head_pass_loads C0 C1 CSig SigExt mem sig idx (begin_ + idx)).1 := by
    intro hh
    unfold head_pass_loads at hh
    simp only [List.mem_cons, Prod.mk.injEq] at hh
    rcases hh with ⟨h1, _⟩ | h2
    · exact absurd h1 (by decide)
    · have := mask_loop_loads_kind _
        (fun i x hx => head_candidate_loads_kind CSig SigExt mem sig idx (begin_ + idx) i x hx)
        _ _ _ h2
      simp at this
  unfold do_scan_avx2_x1_loads at h
  simp only [] at h
  cases hr : (head_pass_loads C0 C1 CSig SigExt mem sig idx (begin_ + idx)).2 with
  | some r =>
    rw [hr] at h
    exact absurd h hhead
  | none =>
    rw [hr] at h
    simp only [] at h
    cases hb : (body_loop_loads C0 C1 CSig SigExt CExt mem sig idx maxidx
        (scan_limit CSig SigExt end_ sig idx)
        (scan_limit CSig SigExt end_ sig idx - (((begin_ + idx) ||| 31) + 1))
        (((begin_ + idx) ||| 31) + 1)).2 with
    | some r =>
      rw [hb] at h
      simp only [List.mem_append] at h
      exact body_loop_loads_window _ _ _ _ _ _ _ _ _ _ _ _ _ (h.resolve_left hhead)
    | none =>
      rw [hb] at h
      simp only [List.mem_append] at h
      exact body_loop_loads_window _ _ _ _ _ _ _ _ _ _ _ _ _ (h.resolve_left hhead)

theorem scan_limit_le (CSig : cmp_type) (SigExt : Bool) (end_ : Nat) (sig : signature)
    (idx : Nat) : scan_limit CSig SigExt end_ sig idx ≤ end_ := by
  unfold scan_limit
  split <;> omega

/-- C11 (defect of the code). The signature `10 20 30` (anchor index 0) and the 135-byte
buffer `[4096, 4231)` of zero bytes holding `10 20 30` at the address 4200: the limit is
`end - 31 = 4200`, the aligned window at 4192 has an anchor hit at 4200, which the test
`match > end` lets through, and the candidate check loads 32 bytes at 4200, an address
not below the limit (the load covers the address 4231, the first byte after the buffer). -/
theorem verify_load_at_limit :
    4231 - 4096 - find_twobyte_idx sig_10_20_30 ≥ 64 ∧ sig_10_20_30.length ≤ 4231 - 4096 ∧
    scan_limit (dispatch_CSig sig_10_20_30) (dispatch_SigExt sig_10_20_30) 4231 sig_10_20_30
      (find_twobyte_idx sig_10_20_30) = 4200 ∧
    (load_kind.verify, 4200) ∈ scan_impl_avx2_x1_loads mem_at_limit 4096 4231 sig_10_20_30 ∧
    ¬ (4200 < 4200) :=
  ⟨by decide, by decide, by decide, by decide, by decide⟩

/-- C20. Aligned-body loads stay on buffer pages: in every call of the dispatcher, every
address at which the aligned-body loop of Matcher A loads a window is a multiple of 32,
lies strictly between `begin` and the caller's `end`, and its 32 bytes lie in one
4096-byte page (the page of the load address, itself a byte of the buffer). -/
theorem body_loads_on_buffer_pages (mem : Memory) (begin_ end_ : Nat) (sig : signature)
    (a : Nat)
    (h : (load_kind.window, a) ∈ scan_impl_avx2_x1_loads mem begin_ end_ sig) :
    a % 32 = 0 ∧ begin_ < a ∧ a < end_ ∧ a / 4096 = (a + 31) / 4096 := by
  unfold scan_impl_avx2_x1_loads at h
  simp only [] at h
  split at h
  · simp at h
  · split at h
    · obtain ⟨j, hj, hlt⟩ := do_scan_loads_window _ _ _ _ _ _ _ _ _ _ _ _ h
      have hle := scan_limit_le (dispatch_CSig sig) (dispatch_SigExt sig) end_ sig
        (find_twobyte_idx sig)
      rw [lor_31] at hj
      omega
    · simp at h

/-- C20, at the signature `AB` and the 64-byte buffer at 4096 of bytes `80` holding `AB`
at the offset 40: the aligned body loads the window at 4128. -/
theorem body_loads_on_buffer_pages_witness :
    (load_kind.window, 4128) ∈ scan_impl_avx2_x1_loads mem_80_AB 4096 4160 sig_AB ∧
    4128 % 32 = 0 ∧ 4096 < 4128 ∧ 4128 < 4160 ∧ 4128 / 4096 = (4128 + 31) / 4096 :=
  ⟨by decide, body_loads_on_buffer_pages mem_80_AB 4096 4160 sig_AB 4128 (by decide)⟩

/-! ## Full verification, for every anchor -/

theorem dispatch_CSig_full (sig : signature) (h3 : 3 ≤ sig.length) :
    dispatch_CSig sig ≠ cmp_type.none := by
  intro h
  have := (dispatch_CSig_none_iff sig).1 h
  omega

/-- With full verification, a returning head candidate is a verified match. -/
theorem head_candidate_verified (mem : Memory) (sig : signature) (idx ptr i : Nat)
    (r : Option Nat) (h3 : 3 ≤ sig.length)
    (h : head_candidate (dispatch_CSig sig) (dispatch_SigExt sig) mem sig idx ptr i = some r) :
    r = some (ptr + i - idx) ∧ matchAt mem sig (ptr + i - idx) = true := by
  unfold head_candidate at h
  simp only [] at h
  rw [if_neg (dispatch_CSig_full sig h3)] at h
  by_cases hv : verify_candidate (dispatch_SigExt sig) mem sig (load_sig_256_32 sig).1
      (load_sig_256_32 sig).2 (ptr + i - idx) = true
  · rw [if_pos hv] at h
    exact ⟨(Option.some.inj h).symm, (verify_candidate_iff mem sig _).1 hv⟩
  · rw [if_neg hv] at h
    exact Option.noConfusion h

/-- With full verification, a returning body candidate is `nullptr` or a verified match. -/
theorem body_candidate_verified (mem : Memory) (sig : signature) (idx end_adj ptr i : Nat)
    (r : Option Nat) (h3 : 3 ≤ sig.length)
    (h : body_candidate (dispatch_CSig sig) (dispatch_SigExt sig) mem sig idx end_adj ptr i =
      some r) :
    r = none ∨ (r = some (ptr + i - idx) ∧ matchAt mem sig (ptr + i - idx) = true) := by
  unfold body_candidate at h
  simp only [] at h
  by_cases hgt : ptr + i > end_adj
  · rw [if_pos hgt] at h
    exact Or.inl (Option.some.inj h).symm
  · rw [if_neg hgt] at h
    right
    apply head_candidate_verified mem sig idx ptr i r h3
    unfold head_candidate
    simp only []
    exact h

/-- With full verification, every address the template returns is an address at which
the signature matches, whatever the anchor index and the anchor comparisons. -/
theorem do_scan_verified (C0 C1 : cmp_type) (CExt : cmp_type_extop) (mem : Memory)
    (sig : signature) (begin_ end_ idx maxidx m : Nat) (h3 : 3 ≤ sig.length)
    (h : do_scan_avx2_x1 C0 C1 (dispatch_CSig sig) (dispatch_SigExt sig) CExt mem begin_ end_
      sig idx maxidx = some m) :
    matchAt mem sig m = true := by
  unfold do_scan_avx2_x1 at h
  simp only [] at h
  cases hh : head_pass C0 C1 (dispatch_CSig sig) (dispatch_SigExt sig) mem sig idx
      (begin_ + idx) with
  | some r =>
    rw [hh] at h
    simp only [] at h
    unfold head_pass at hh
    obtain ⟨i, _, _, hc, _⟩ := mask_loop_cases (head_mask_lt _ _ _ _ _ _) hh
    obtain ⟨h1, h2⟩ := head_candidate_verified mem sig idx _ i r h3 hc
    rw [h] at h1
    rw [Option.some.inj h1]; exact h2
  | none =>
    rw [hh] at h
    simp only [] at h
    cases hb : body_loop C0 C1 (dispatch_CSig sig) (dispatch_SigExt sig) CExt mem sig idx maxidx
        (scan_limit (dispatch_CSig sig) (dispatch_SigExt sig) end_ sig idx)
        (scan_limit (dispatch_CSig sig) (dispatch_SigExt sig) end_ sig idx -
          (((begin_ + idx) ||| 31) + 1))
        (((begin_ + idx) ||| 31) + 1) with
    | some r =>
      rw [hb] at h
      simp only [] at h
      obtain ⟨k, _, hk, _⟩ := body_loop_cases _ _ _ _ _ _ _ _ _ _ _ _ _ hb
      unfold body_window at hk
      split at hk
      · exact Option.noConfusion hk
      · obtain ⟨i, _, _, hc, _⟩ := mask_loop_cases (anchor_mask_lt _ _ _ _ _ _) hk
        rcases body_candidate_verified mem sig idx _ _ i r h3 hc with h1 | ⟨h1, h2⟩
        · rw [h1] at h; exact Option.noConfusion h
        · rw [h] at h1
          rw [Option.some.inj h1]; exact h2
    | none =>
      rw [hb] at h
      simp only [] at h
      exact (tail_pass_sound _ _ mem sig _ _ m h).1

/-- C14. Soundness of full verification: for every signature of at least 3 cells and
every buffer, with the masked comparison as the equality of a cell and a byte, every
non-null address `r` that `do_scan_avx2_x1` returns, instantiated with full verification
as the dispatcher does (whatever the anchor index, the anchor comparisons and the
filter), from the head pass, the aligned body or the tail pass, satisfies
`(mem[r+i] & mask[i]) == (byte[i] & mask[i])` for every `i < len`, the cells from 32 on
included. -/
theorem full_verification_sound (C0 C1 : cmp_type) (CExt : cmp_type_extop) (mem : Memory)
    (sig : signature) (begin_ end_ idx maxidx r : Nat) (h3 : 3 ≤ sig.length)
    (h : do_scan_avx2_x1 C0 C1 (dispatch_CSig sig) (dispatch_SigExt sig) CExt mem begin_ end_
      sig idx maxidx = some r) :
    ∀ i, i < sig.length →
      rd mem (r + i) &&& (sig_at sig i).mask = (sig_at sig i).byte &&& (sig_at sig i).mask := by
  have hm := do_scan_verified C0 C1 CExt mem sig begin_ end_ idx maxidx r h3 h
  rw [matchAt_iff] at hm
  intro i hi
  have := hm i hi
  unfold cell_eq at this
  exact beq_iff_eq.1 this

/-- C14, at the signature `90 ?? 90` and the 128-byte buffer at 4096 of bytes `80` holding
`90 80 90` at the offset 40: the template returns 4136, where every cell matches. -/
theorem full_verification_sound_witness :
    3 ≤ sig_scenario2.length ∧
    do_scan_avx2_x1 cmp_type.full cmp_type.none (dispatch_CSig sig_scenario2)
      (dispatch_SigExt sig_scenario2) cmp_type_extop.instrgt mem_wild 4096 4224 sig_scenario2
      0 0 = some 4136 ∧
    (∀ i, i < sig_scenario2.length →
      rd mem_wild (4136 + i) &&& (sig_at sig_scenario2 i).mask =
        (sig_at sig_scenario2 i).byte &&& (sig_at sig_scenario2 i).mask) :=
  ⟨by decide, by decide,
    full_verification_sound cmp_type.full cmp_type.none cmp_type_extop.instrgt mem_wild
      sig_scenario2 4096 4224 0 0 4136 (by decide) (by decide)⟩

/-- C12 (defect of the code). The signature of sixteen wildcards followed by `AA` and the
64-byte buffer at 4096 of zero bytes holding `AA` at the offset 32: in the window at 4096
both flags are set, the offset-0 branch fails its remainder check at `ptr + 16`, and the
offset-16 branch (`ptr + 16` below the adjusted end, remainder verified at `ptr + 32`)
returns `ptr = 4096`, not `ptr + 16 = 4112`, the address at which the signature matches. -/
theorem x16_offset16_returns_ptr :
    x16_mask mem_AA_4128 sig_wild16_AA 4096 &&& 0x00010000 ≠ 0 ∧
    x16_branch0 true mem_AA_4128 sig_wild16_AA 4096 = none ∧
    4096 + 16 < 4160 - (sig_wild16_AA.length - 1) ∧
    std_equal (sig_wild16_AA.drop 16) mem_AA_4128 (4096 + 32) = true ∧
    x16_branch16 true mem_AA_4128 sig_wild16_AA (4160 - (sig_wild16_AA.length - 1)) 4096 =
      some (some 4096) ∧
    do_scan_avx2_x16 true mem_AA_4128 4096 4160 sig_wild16_AA = some 4096 ∧
    matchAt mem_AA_4128 sig_wild16_AA (4096 + 16) = true ∧
    matchAt mem_AA_4128 sig_wild16_AA 4096 = false :=
  ⟨by decide, by decide, by decide, by decide, by decide, by decide, by decide, by decide⟩

/-- C13 (defect of the code). The signature `AB` (mask FF): `load_sig_256_16` leaves the
mask `FF` of cell 0 in lane 16 of the byte array, whose lane 0 is `AB`, and leaves lane
16 of the mask array at zero, whose lane 0 is `FF`: the upper half replicates neither. -/
theorem load_sig_256_16_upper_half :
    (load_sig_256_16 sig_AB).1 0 = 0xAB ∧ (load_sig_256_16 sig_AB).1 (0 + 16) = 0xFF ∧
    (load_sig_256_16 sig_AB).2 0 = 0xFF ∧ (load_sig_256_16 sig_AB).2 (0 + 16) = 0 :=
  ⟨by decide, by decide, by decide, by decide⟩

/-- C15 (defect of the code). The lanes the head pass keeps are lane 0 alone when
`ptr / 32` is a multiple of 8 and all 32 lanes otherwise: at `ptr = 4096` lane 5, before
the next aligned address, is dropped, and at `ptr = 4136` lane 30, past the next aligned
address 4160, is kept. With the signature `AB` and the 64-byte buffer at 4096 of bytes
`80` holding `AB` at the offset 5, no pass examines the address 4101 and the scan reports
not-found. -/
theorem head_lane_mask_defect :
    (head_lanes 4096 = 1 ∧ (head_lanes 4096).testBit 5 = false ∧ 5 ≤ 31 - 4096 % 32) ∧
    (head_lanes 4136 = 0xFFFFFFFF ∧ (head_lanes 4136).testBit 30 = true ∧
      ¬ (30 ≤ 31 - 4136 % 32)) ∧
    (rd mem_80_AB_5 (4096 + 5) = 0xAB ∧
      scan_impl_normal_x1 mem_80_AB_5 4096 4160 sig_AB = some (4096 + 5) ∧
      scan_impl_avx2_x1 mem_80_AB_5 4096 4160 sig_AB = none) :=
  ⟨⟨by decide, by decide, by decide⟩, ⟨by decide, by decide, by decide⟩,
    ⟨by decide, by decide, by decide⟩⟩

/-- C16 (defect of the code). The quick-reject test is a signed comparison. For the
signature `AB`, the window at 4128 of zero bytes and one `AB` holds no byte above `AB`
as a raw value, yet it is skipped (0 is greater than -85). For the signature `10`, the
window at 4128 holds the byte `FF`, above `10` as a raw value, yet it is not skipped
(-1 is not greater than 16). -/
theorem quick_reject_signed :
    ((∀ i, i < 32 →
        rd mem_scenario1 (4128 + i) ≤ (sig_at sig_AB (find_maxbyte_idx sig_AB)).byte) ∧
      quick_reject mem_scenario1 sig_AB (find_maxbyte_idx sig_AB) 4128 = true) ∧
    (rd mem_FF_4130 (4128 + 2) > (sig_at sig_10 (find_maxbyte_idx sig_10)).byte ∧
      quick_reject mem_FF_4130 sig_10 (find_maxbyte_idx sig_10) 4128 = false) :=
  ⟨⟨by decide, by decide⟩, ⟨by decide, by decide⟩⟩

/-- C17, the claim as stated fails: for the three-cell signature `90 ?? 90` with anchor 0
and `end = 4224` the limit of the code is `end - 31 = 4193`, while `F = min (len, 32) = 3`
gives `end - 2 = 4222`. -/
theorem scan_limit_counterexample :
    scan_limit (dispatch_CSig sig_scenario2) (dispatch_SigExt sig_scenario2) 4224 sig_scenario2
      (find_twobyte_idx sig_scenario2) = 4193 ∧
    4224 - (min sig_scenario2.length 32 - find_twobyte_idx sig_scenario2 - 1) = 4222 :=
  ⟨by decide, by decide⟩

/-- C17 (amended). Safety-adjusted limit: for every signature of length `len` with anchor
`a`, the limit Matcher A scans up to is `end - (F - a - 1)`, where `F = 32`, the width of
the window, when `3 <= len <= 32` (full verification, non-extended), and `F = len` when
`len <= 2` or `len > 32`. -/
theorem scan_limit_footprint (sig : signature) (end_ a : Nat) :
    scan_limit (dispatch_CSig sig) (dispatch_SigExt sig) end_ sig a =
      end_ - ((if 3 ≤ sig.length ∧ sig.length ≤ 32 then 32 else sig.length) - a - 1) := by
  unfold scan_limit dispatch_CSig dispatch_SigExt
  by_cases h2 : sig.length > 2
  · by_cases h32 : sig.length > 32
    · simp only [h2, h32, if_true, decide_True, Bool.and_self]
      rw [if_neg (by simp), if_neg (by omega)]
    · simp only [h2, h32, if_true, decide_True, decide_False, Bool.and_false]
      rw [if_pos (by simp), if_pos (by omega)]
  · simp only [h2, if_false]
    rw [if_neg (by simp), if_neg (by omega)]

/-- C18. For every non-empty signature, the dispatcher selects `CSig = none` exactly when
the length is 1 or 2, and for such a signature, whatever its masks, `find_twobyte_idx`
returns 0, so that subtracting the anchor index from an anchor hit address leaves it
unchanged. -/
theorem short_signature_anchor_zero (sig : signature) (hne : sig ≠ []) :
    (dispatch_CSig sig = cmp_type.none ↔ (sig.length = 1 ∨ sig.length = 2)) ∧
    ((sig.length = 1 ∨ sig.length = 2) →
      find_twobyte_idx sig = 0 ∧ ∀ m : Nat, m - find_twobyte_idx sig = m) := by
  have hlen : 0 < sig.length := List.length_pos.2 hne
  constructor
  · rw [dispatch_CSig_none_iff]
    omega
  · intro h
    have h0 := find_twobyte_idx_short sig (by omega)
    exact ⟨h0, fun m => by rw [h0]; rfl⟩

/-- C18, at the two-cell signature with the partial masks `0F F0`. -/
theorem short_signature_anchor_zero_witness :
    sig_0F_F0 ≠ [] ∧ sig_0F_F0.length = 2 ∧
    (dispatch_CSig sig_0F_F0 = cmp_type.none ↔ (sig_0F_F0.length = 1 ∨ sig_0F_F0.length = 2)) ∧
    ((sig_0F_F0.length = 1 ∨ sig_0F_F0.length = 2) →
      find_twobyte_idx sig_0F_F0 = 0 ∧ ∀ m : Nat, m - find_twobyte_idx sig_0F_F0 = m) :=
  ⟨by decide, by decide, short_signature_anchor_zero sig_0F_F0 (by decide)⟩

/-- The state of the loop of `find_twobyte_idx` with its reads, after the positions
`1 .. n`: the same `best` as the loop itself, and reads below the length. -/
theorem find_twobyte_idx_reads_loop_inv (sig : signature) (first : List Nat)
    (hfirst : ∀ k, k ∈ first → k < sig.length) (n : Nat) (hn : n + 1 ≤ sig.length) :
    ((List.range' 1 n).foldl (find_twobyte_idx_loop_reads sig) (0, first)).1 =
        (List.range' 1 n).foldl (find_twobyte_idx_step sig) 0 ∧
      ∀ k, k ∈ ((List.range' 1 n).foldl (find_twobyte_idx_loop_reads sig) (0, first)).2 →
        k < sig.length := by
  induction n with
  | zero =>
    simp only [List.range'_zero, List.foldl_nil]
    exact ⟨trivial, hfirst⟩
  | succ n ih =>
    obtain ⟨ih1, ih2⟩ := ih (by omega)
    have hbest := (find_twobyte_idx_loop_inv sig n (by omega)).1
    simp only [] at hbest
    rw [List.range'_concat, List.foldl_append, List.foldl_append]
    simp only [List.foldl_cons, List.foldl_nil, Nat.one_mul]
    generalize (List.range' 1 n).foldl (find_twobyte_idx_loop_reads sig) (0, first) = st
      at ih1 ih2 ⊢
    unfold find_twobyte_idx_loop_reads
    simp only []
    rw [ih1]
    refine ⟨rfl, ?_⟩
    intro k hk
    rw [List.mem_append] at hk
    rcases hk with h | h
    · exact ih2 k h
    · unfold find_twobyte_idx_step_reads at h
      split at h
      · simp only [List.mem_singleton] at h
        omega
      · by_cases hg : 1 + n + 1 < sig.length
        · rw [if_pos hg] at h
          simp only [List.mem_append, List.mem_cons, List.mem_singleton, List.not_mem_nil,
            or_false] at h
          omega
        · rw [if_neg hg] at h
          simp only [List.mem_append, List.mem_cons, List.mem_singleton, List.not_mem_nil,
            or_false] at h
          omega

/-- C19. Index safety of anchor selection: for every non-empty signature, every cell
index `find_twobyte_idx` reads is below the length; at the start of every iteration `i`
of its loop `best < i` holds, which puts the unguarded read of `sig[best + 1]` in range;
and the returned index is below the length. -/
theorem find_twobyte_idx_reads_in_range (sig : signature) (hne : sig ≠ []) :
    (∀ k, k ∈ find_twobyte_idx_reads sig → k < sig.length) ∧
    (∀ i, 1 ≤ i → i < sig.length →
      (List.range' 1 (i - 1)).foldl (find_twobyte_idx_step sig) 0 < i ∧
      (List.range' 1 (i - 1)).foldl (find_twobyte_idx_step sig) 0 + 1 < sig.length) ∧
    find_twobyte_idx sig < sig.length := by
  have hlen : 0 < sig.length := List.length_pos.2 hne
  have hfirst : ∀ k, k ∈ (0 :: (if (sig_at sig 0).mask = 0xFF ∧ sig.length > 1 then [1] else [])) →
      k < sig.length := by
    intro k hk
    rw [List.mem_cons] at hk
    rcases hk with h | h
    · omega
    · split at h
      · rename_i hc
        simp only [List.mem_singleton] at h
        omega
      · simp at h
  refine ⟨?_, ?_, find_twobyte_idx_lt sig hne⟩
  · intro k hk
    unfold find_twobyte_idx_reads at hk
    simp only [] at hk
    split at hk
    · exact hfirst k hk
    · exact (find_twobyte_idx_reads_loop_inv sig _ hfirst (sig.length - 1) (by omega)).2 k hk
  · intro i h1 hi
    have := (find_twobyte_idx_loop_inv sig (i - 1) (by omega)).1
    simp only [] at this
    omega

/-- C19, at the signature `?? ?? AA BB`, whose loop moves `best` to 2: the reads are
`0, 1, 2, 2, 3, 0, 1, 3, 3, 2, 3`. -/
theorem find_twobyte_idx_reads_in_range_witness :
    sig_wild2 ≠ [] ∧ find_twobyte_idx_reads sig_wild2 = [0, 1, 2, 2, 3, 0, 1, 3, 3, 2, 3] ∧
    (∀ k, k ∈ find_twobyte_idx_reads sig_wild2 → k < sig_wild2.length) ∧
    (∀ i, 1 ≤ i → i < sig_wild2.length →
      (List.range' 1 (i - 1)).foldl (find_twobyte_idx_step sig_wild2) 0 < i ∧
      (List.range' 1 (i - 1)).foldl (find_twobyte_idx_step sig_wild2) 0 + 1 <
        sig_wild2.length) ∧
    find_twobyte_idx sig_wild2 < sig_wild2.length :=
  ⟨by decide, by decide, find_twobyte_idx_reads_in_range sig_wild2 (by decide)⟩

/-- C1 (defect of the code). The signature `AB` (mask FF, no wildcard) and the 64-byte
buffer at 4096 of bytes `80` holding `AB` at the offset 5. No byte of the buffer is
above `AB` and the quick-reject test skips no window, yet the vector scan reports
not-found where the scalar reference reports the offset 5: the head pass keeps lane 0
alone and the aligned body starts at 4128, so no pass examines the address 4101. -/
theorem oracle_equivalence_defect :
    (∀ c, c ∈ sig_AB → c.mask = 0xFF) ∧
    4160 - 4096 - find_twobyte_idx sig_AB ≥ 64 ∧
    (∀ i, i < 64 →
      rd mem_80_AB_5 (4096 + i) ≤ (sig_at sig_AB (find_maxbyte_idx sig_AB)).byte) ∧
    quick_reject mem_80_AB_5 sig_AB (find_maxbyte_idx sig_AB) 4128 = false ∧
    scan_impl_normal_x1 mem_80_AB_5 4096 4160 sig_AB = some (4096 + 5) ∧
    scan_impl_avx2_x1 mem_80_AB_5 4096 4160 sig_AB = none :=
  ⟨by decide, by decide, by decide, by decide, by decide, by decide⟩

/-- C3 (defect of the code). The signature `10 20 30` and the 128-byte buffer at 4096 of
zero bytes holding `10 20 30` at the last possible offset 125. The signature matches
there and at no earlier offset, and the quick-reject test skips none of the aligned
windows 4128, 4160, 4192; but the anchor hit at 4221 lies past the limit `end - 31 =
4193`, the aligned body executes `return nullptr`, and the tail pass, which would find
the match, is never reached: the scan reports not-found. -/
theorem boundary_match_defect :
    4096 + 64 + sig_10_20_30.length ≤ 4224 ∧
    matchAt mem_10_20_30_last sig_10_20_30 (4224 - sig_10_20_30.length) = true ∧
    (∀ q, q < 125 → matchAt mem_10_20_30_last sig_10_20_30 (4096 + q) = false) ∧
    (∀ k, k < 3 →
      quick_reject mem_10_20_30_last sig_10_20_30 (find_maxbyte_idx sig_10_20_30)
        (4128 + 32 * k) = false) ∧
    tail_pass (dispatch_CSig sig_10_20_30) (dispatch_SigExt sig_10_20_30) mem_10_20_30_last
      sig_10_20_30 (find_twobyte_idx sig_10_20_30)
      (scan_limit (dispatch_CSig sig_10_20_30) (dispatch_SigExt sig_10_20_30) 4224
        sig_10_20_30 (find_twobyte_idx sig_10_20_30)) = some (4224 - sig_10_20_30.length) ∧
    scan_impl_normal_x1 mem_10_20_30_last 4096 4224 sig_10_20_30 =
      some (4224 - sig_10_20_30.length) ∧
    scan_impl_avx2_x1 mem_10_20_30_last 4096 4224 sig_10_20_30 = none :=
  ⟨by decide, by decide, by decide, by decide, by decide, by decide, by decide⟩

/-- C5 (defect of the code). The signature `90 ?? 90` on two 128-byte buffers at 4096 of
bytes `80`, each changed only in the byte under the wildcard (mask 00). (i) With
`90 80 90` at the offset 40 the scan reports the offset 40; with the wildcard byte set to
`00`, not above `90` as a raw value, the signed quick-reject test skips the window and
the scan reports not-found. (ii) With `90 00 90` at the offset 104 the scan reports the
offset 104 (from the tail pass); with the wildcard byte set to `85` the window of the
match is not skipped, its anchor hit at 4200 lies past the limit 4193, and the aligned
body returns `nullptr` before the tail pass. In both changed buffers the signature still
matches first at the same offset, as the scalar reference reports. -/
theorem wildcard_invariance_defect :
    (sig_at sig_scenario2 1).mask = 0 ∧
    (scan_impl_avx2_x1 mem_wild 4096 4224 sig_scenario2 = some (4096 + 40) ∧
      (∀ a, a ≠ 4096 + 40 + 1 → mem_wild_00 a = mem_wild a) ∧
      rd mem_wild_00 (4096 + 40 + 1) ≤
        (sig_at sig_scenario2 (find_maxbyte_idx sig_scenario2)).byte ∧
      scan_impl_normal_x1 mem_wild_00 4096 4224 sig_scenario2 = some (4096 + 40) ∧
      scan_impl_avx2_x1 mem_wild_00 4096 4224 sig_scenario2 = none) ∧
    (scan_impl_avx2_x1 mem_wild_tail 4096 4224 sig_scenario2 = some (4096 + 104) ∧
      (∀ a, a ≠ 4096 + 104 + 1 → mem_wild_tail_85 a = mem_wild_tail a) ∧
      quick_reject mem_wild_tail_85 sig_scenario2 (find_maxbyte_idx sig_scenario2) 4192 =
        false ∧
      scan_impl_normal_x1 mem_wild_tail_85 4096 4224 sig_scenario2 = some (4096 + 104) ∧
      scan_impl_avx2_x1 mem_wild_tail_85 4096 4224 sig_scenario2 = none) :=
  ⟨by decide,
    ⟨by decide, fun a ha => by unfold mem_wild_00; rw [if_neg ha], by decide, by decide,
      by decide⟩,
    ⟨by decide, fun a ha => by unfold mem_wild_tail_85; rw [if_neg ha], by decide, by decide,
      by decide⟩⟩

end mnem
